import Mathlib

/-!
Per-site statistics of structural-variant records: svprops.

A shallow embedding of `src/svprops.cpp` and the properties proved of it.
The definitions cover the source part by part: the median helper, the header
queries, the column map built at start-up, the missing-value tests, the field
extraction, the sample loop, the per-record summaries and the row output.
Numbers of type double are exact rationals; calls into the variant-call
library and into the C++ standard library are described where they are used.
-/

namespace SvProps

/-! ## Median (lines 32-42) -/

section Median

variable {α : Type} [LinearOrder α]

/-- The list `w` is partitioned around position `k`: the position exists, nothing before it
is greater than the element there and nothing behind it is smaller. -/
def PartitionedAt (w : List α) (k : Nat) : Prop :=
  match w[k]? with
  | none => False
  | some x => (∀ a ∈ w.take k, a ≤ x) ∧ (∀ b ∈ w.drop (k + 1), x ≤ b)

/-- What a call `std::nth_element(begin, begin + k, end)` guarantees of the rearranged range
`w` of a range that held `v`: the same elements, partitioned around position `k`. -/
def NthElementPost (v w : List α) (k : Nat) : Prop :=
  w.Perm v ∧ PartitionedAt w k

/-- Quickselect on a list with a recursion bound: the first element is the pivot, the smaller
elements go in front of it and the others behind it, and the side holding position `k` is
treated the same way. -/
def nthElementAux : Nat → List α → Nat → List α
  | 0, v, _ => v
  | _ + 1, [], _ => []
  | fuel + 1, p :: rest, k =>
    let lo := rest.filter (fun x => decide (x < p))
    let hi := rest.filter (fun x => !decide (x < p))
    if k < lo.length then nthElementAux fuel lo k ++ p :: hi
    else if k = lo.length then lo ++ p :: hi
    else lo ++ p :: nthElementAux fuel hi (k - lo.length - 1)

/-- An executable stand-in for `std::nth_element`: quickselect, with the length of the range
as recursion bound (each round removes the pivot, so the bound is never reached). -/
def nth_element (v : List α) (k : Nat) : List α := nthElementAux v.length v k

/-- The function `_getMedian(v, med)` of lines 32-42. `nth` is the implementation of
`std::nth_element`; the result is the rearranged vector and the new value of `med`. The
value `_med` that the output variable held before the call is overwritten by line 35. -/
def _getMedian [Zero α] (nth : List α → Nat → List α) (v : List α) (_med : α) : List α × α :=
  let med : α := 0
  if v.length ≠ 0 then
    let w := nth v (v.length / 2)
    (w, w.getD (v.length / 2) med)
  else (v, med)

/-- The input sorted in ascending order: the reference of the median claims. -/
def sortedAscending (v : List α) : List α := v.insertionSort (· ≤ ·)

end Median

/-! ## Header queries (lines 44-57) -/

/-- Modelled from the spec: the type code BCF_HT_INT of the variant-call library (its header
is not part of the sources), which marks the integer encoding of a field. -/
def BCF_HT_INT : Int := 1

/-- Modelled from the spec: the type code BCF_HT_REAL of the variant-call library, which marks
the real encoding of a field. -/
def BCF_HT_REAL : Int := 2

/-- The header of the input collection, as far as the program queries it: the identifier
dictionary (every declared INFO, FORMAT and FILTER key), the declared type code of a FORMAT
key, and the sample names in column order. -/
structure Header where
  ids : List String
  formatType : String → Int
  samples : List String

/-- The library call `bcf_hdr_id2int(hdr, BCF_DT_ID, key)`: the index of the key in the
dictionary, or -1. -/
def bcf_hdr_id2int (hdr : Header) (key : String) : Int :=
  if key ∈ hdr.ids then (hdr.ids.indexOf key : Int) else -1

/-- The library call `bcf_hdr_nsamples(hdr)`. -/
def bcf_hdr_nsamples (hdr : Header) : Nat := hdr.samples.length

/-- The function `_isKeyPresent` of lines 44-47. -/
def _isKeyPresent (hdr : Header) (key : String) : Bool :=
  decide (bcf_hdr_id2int hdr key ≥ 0)

/-- The function `_getFormatType` of lines 54-57. -/
def _getFormatType (hdr : Header) (key : String) : Int := hdr.formatType key

/-! ## The column map and the column header (lines 133-167) -/

/-- The type `TColumnMap` (std::map from name to index): the entries in key order. -/
abbrev TColumnMap := List (String × Nat)

/-- The assignment `cMap[k] = v`: the value of an existing key is replaced, a new key is
inserted at its place in the lexicographic order of the keys. -/
def TColumnMap.assign : TColumnMap → String → Nat → TColumnMap
  | [], k, v => [(k, v)]
  | (k', v') :: m, k, v =>
    if k = k' then (k, v) :: m
    else if k.toList < k'.toList then (k, v) :: (k', v') :: m
    else (k', v') :: TColumnMap.assign m k v

/-- The statement `cMap[name] = fieldIndex++` on the pair of the map and the counter. -/
def addColumn (s : TColumnMap × Nat) (name : String) : TColumnMap × Nat :=
  (s.1.assign name s.2, s.2 + 1)

/-- Lines 134-163: the column map and the final value of `fieldIndex`. -/
def buildColumnMap (hdr : Header) : TColumnMap × Nat :=
  let s : TColumnMap × Nat := ([], 0)
  let s := addColumn s "chr"
  let s := addColumn s "start"
  let s := addColumn s "end"
  let s := addColumn s "id"
  let s := addColumn s "size"
  let s := addColumn s "vac"
  let s := addColumn s "vaf"
  let s := addColumn s "singleton"
  let s := addColumn s "missingrate"
  let s := if _isKeyPresent hdr "SVTYPE" then addColumn s "svtype" else s
  let s := if _isKeyPresent hdr "IMPRECISE" then addColumn s "precise" else s
  let s := if _isKeyPresent hdr "CIPOS" then addColumn s "ci" else s
  let s := if _isKeyPresent hdr "FIC" then addColumn s "fic" else s
  let s := if _isKeyPresent hdr "RSQ" then addColumn s "rsq" else s
  let s := if _isKeyPresent hdr "HWEpval" then addColumn s "hwepval" else s
  let s := if _isKeyPresent hdr "GQ" then addColumn (addColumn s "refgq") "altgq" else s
  let s := if _isKeyPresent hdr "RC" then addColumn (addColumn s "rdratio") "medianrc" else s
  let s := if _isKeyPresent hdr "DV" then addColumn (addColumn s "refratio") "altratio" else s
  s

/-- Lines 165-167: a vector of `cMap.size()` names, cell `second` of each entry set to
`first`, visiting the entries in map order. -/
def buildColumnHeader (cMap : TColumnMap) : List String :=
  cMap.foldl (fun h e => h.set e.2 e.1) (List.replicate cMap.length "")

/-- The vector `cHeader` of the run. -/
def cHeader (hdr : Header) : List String := buildColumnHeader (buildColumnMap hdr).1

/-- The nine columns of every output table. -/
def fixedColumns : List String :=
  ["chr", "start", "end", "id", "size", "vac", "vaf", "singleton", "missingrate"]

/-- The optional columns in the order in which lines 146-163 register them, each with the
header key that gates it. -/
def gatedColumns : List (String × String) :=
  [("svtype", "SVTYPE"), ("precise", "IMPRECISE"), ("ci", "CIPOS"), ("fic", "FIC"),
   ("rsq", "RSQ"), ("hwepval", "HWEpval"), ("refgq", "GQ"), ("altgq", "GQ"),
   ("rdratio", "RC"), ("medianrc", "RC"), ("refratio", "DV"), ("altratio", "DV")]

/-- The order of the optional columns as the specification lists it: the three site columns,
the three pairs, then fic, rsq and hwepval. -/
def specOptionalOrder : List String :=
  ["svtype", "precise", "ci", "refgq", "altgq", "rdratio", "medianrc", "refratio",
   "altratio", "fic", "rsq", "hwepval"]

/-- The header without the key `a`. -/
def removeKey (hdr : Header) (a : String) : Header :=
  { hdr with ids := hdr.ids.filter (fun k => k != a) }

/-! ## Missing-value sentinels (lines 59-81) -/

/-- Modelled from the spec: the reserved 8-bit sentinel bcf_int8_missing of the
variant-call library (its header is not part of the sources), the minimum value of the width. -/
def bcf_int8_missing : Int := -128

/-- Modelled from the spec: the reserved 16-bit sentinel bcf_int16_missing, the minimum
value of the width. -/
def bcf_int16_missing : Int := -32768

/-- Modelled from the spec: the reserved 32-bit sentinel bcf_int32_missing, the minimum
value of the width. -/
def bcf_int32_missing : Int := -2147483648

/-- A 32-bit float as stored in a record. The reserved not-a-number bit pattern that marks a
missing value is its own constructor; every other non-finite pattern is `nonFinite`. -/
inductive BcfFloat where
  | missing
  | num (q : ℚ)
  | nonFinite
  deriving DecidableEq

/-- Overload `_missing(bool)` (line 59). -/
def _missing_bool (value : Bool) : Bool := !value

/-- Overload `_missing(float)` (line 63): bcf_float_is_missing tests for the reserved pattern. -/
def _missing_float (value : BcfFloat) : Bool :=
  match value with
  | .missing => true
  | _ => false

/-- Overload `_missing(int8_t)` (line 67). -/
def _missing_int8 (value : Int) : Bool := value == bcf_int8_missing

/-- Overload `_missing(int16_t)` (line 71). -/
def _missing_int16 (value : Int) : Bool := value == bcf_int16_missing

/-- Overload `_missing(int32_t)` (line 75). -/
def _missing_int32 (value : Int) : Bool := value == bcf_int32_missing

/-- Overload `_missing(std::string)` (line 79). -/
def _missing_string (value : String) : Bool := value.isEmpty || value == "."

/-! ## Records, buffers and field extraction (lines 98-131, 179-202) -/

/-- A value of type TPrecision (double) in the exact model: `some q` is the finite number `q`
(rounding is not modelled); `none` stands for a value that the exact model does not
determine: an infinity or a not-a-number that a division by zero gives, or a value computed
from one. -/
abbrev TPrecision := Option ℚ

/-- Division of two int32_t values converted to double, in the exact model; the quotient by
0 (an infinity or a not-a-number) is not determined. -/
def fdiv (a b : Int) : TPrecision := if b = 0 then none else some ((a : ℚ) / (b : ℚ))

/-- Conversion of a stored float to TPrecision: a number is kept as it is, any other
pattern is not determined in the exact model. -/
def BcfFloat.toPrecision : BcfFloat → TPrecision
  | .num q => some q
  | _ => none

/-- One decoded record as the typed accessors of the variant-call library present it:
`none` for a tag means the record carries no value for it. -/
structure Record where
  chrom : String
  pos : Int
  id : String
  infoInt32 : String → Option (List Int)
  infoFloat : String → Option (List BcfFloat)
  infoString : String → Option String
  infoFlag : String → Bool
  formatInt32 : String → Option (List Int)
  formatFloat : String → Option (List BcfFloat)

/-- The destination buffers declared before the record loop (lines 99-131); `none` is NULL.
They live across iterations. -/
structure Buffers where
  svend : Option (List Int) := none
  inslen : Option (List Int) := none
  cipos : Option (List Int) := none
  svt : Option String := none
  fic : Option (List BcfFloat) := none
  rsq : Option (List BcfFloat) := none
  hwepval : Option (List BcfFloat) := none
  gt : Option (List Int) := none
  rc : Option (List Int) := none
  rcl : Option (List Int) := none
  rcr : Option (List Int) := none
  dv : Option (List Int) := none
  dr : Option (List Int) := none
  rv : Option (List Int) := none
  rr : Option (List Int) := none
  gqInt : Option (List Int) := none
  gqFloat : Option (List BcfFloat) := none

/-- The library getters bcf_get_info_int32, bcf_get_info_float, bcf_get_format_int32 and
bcf_get_format_float: when the record carries values for the tag they are copied to the front
of the destination buffer, which is grown when too small (cells behind the copied values keep
their content); when it carries none the buffer is left as it was. -/
def fillBuffer {β : Type} (vals : Option (List β)) (dst : Option (List β)) : Option (List β) :=
  match vals with
  | none => dst
  | some vs => some (vs ++ (dst.getD []).drop vs.length)

/-- The library getter bcf_get_info_string: a present value replaces the buffer content. -/
def fillString (val : Option String) (dst : Option String) : Option String :=
  match val with
  | none => dst
  | some s => some s

/-- A getter call behind its header test, `if (_isKeyPresent(hdr, key)) get(..., &dst, ...)`. -/
def guardedFill {β : Type} (present : Bool) (vals : Option (List β)) (dst : Option (List β)) :
    Option (List β) :=
  if present then fillBuffer vals dst else dst

/-- The flag of lines 194-195: `bcf_get_info_flag(hdr, rec, "PRECISE", 0, 0) > 0`, which holds
when the key is declared and the record carries the flag. -/
def preciseFlag (hdr : Header) (rec : Record) : Bool :=
  _isKeyPresent hdr "PRECISE" && rec.infoFlag "PRECISE"

/-- Field extraction at the top of the record loop (lines 182-202). Each statement writes
its own buffer only, so the buffers after the block are given field by field; the result is
the buffers and the flag `precise`. -/
def extractFields (hdr : Header) (rec : Record) (b : Buffers) : Buffers × Bool :=
  ({ gt := fillBuffer (rec.formatInt32 "GT") b.gt
     svend := guardedFill (_isKeyPresent hdr "END") (rec.infoInt32 "END") b.svend
     inslen := guardedFill (_isKeyPresent hdr "INSLEN") (rec.infoInt32 "INSLEN") b.inslen
     cipos := guardedFill (_isKeyPresent hdr "CIPOS") (rec.infoInt32 "CIPOS") b.cipos
     fic := guardedFill (_isKeyPresent hdr "FIC") (rec.infoFloat "FIC") b.fic
     rsq := guardedFill (_isKeyPresent hdr "RSQ") (rec.infoFloat "RSQ") b.rsq
     hwepval := guardedFill (_isKeyPresent hdr "HWEpval") (rec.infoFloat "HWEpval") b.hwepval
     svt := if _isKeyPresent hdr "SVTYPE" then fillString (rec.infoString "SVTYPE") b.svt
            else b.svt
     gqInt := guardedFill (_isKeyPresent hdr "GQ" && decide (_getFormatType hdr "GQ" = BCF_HT_INT))
                (rec.formatInt32 "GQ") b.gqInt
     gqFloat := guardedFill (_isKeyPresent hdr "GQ" && !decide (_getFormatType hdr "GQ" = BCF_HT_INT)
                  && decide (_getFormatType hdr "GQ" = BCF_HT_REAL))
                  (rec.formatFloat "GQ") b.gqFloat
     rc := guardedFill (_isKeyPresent hdr "RC") (rec.formatInt32 "RC") b.rc
     rcl := guardedFill (_isKeyPresent hdr "RCL") (rec.formatInt32 "RCL") b.rcl
     rcr := guardedFill (_isKeyPresent hdr "RCR") (rec.formatInt32 "RCR") b.rcr
     dv := guardedFill (_isKeyPresent hdr "DV") (rec.formatInt32 "DV") b.dv
     dr := guardedFill (_isKeyPresent hdr "DR") (rec.formatInt32 "DR") b.dr
     rv := guardedFill (_isKeyPresent hdr "RV") (rec.formatInt32 "RV") b.rv
     rr := guardedFill (_isKeyPresent hdr "RR") (rec.formatInt32 "RR") b.rr },
   preciseFlag hdr rec)

/-! ## The sample loop (lines 204-263) -/

/-- Read of cell `i` of a buffer; `none` when the buffer is NULL or the cell lies outside it
(the source has no defined behaviour there). -/
def readAt {β : Type} (buf : Option (List β)) (i : Nat) : Option β :=
  match buf with
  | none => none
  | some l => l[i]?

/-- Addition of two int32_t values; `none` on signed overflow, where the source has no
defined behaviour. -/
def addInt32 (a b : Int) : Option Int :=
  if -2147483648 ≤ a + b ∧ a + b < 2147483648 then some (a + b) else none

/-- Modelled from the spec: the allele decoding macro bcf_gt_allele of the variant-call
library (its header is not part of the sources). The library defines it as `((val)>>1)-1`:
the cell 2 is allele 0, the cell 4 is allele 1 (one more for a phased call), and the no-call
cell 0 decodes to -1, the value that line 219 tests for. -/
def bcf_gt_allele (val : Int) : Int := val / 2 - 1

/-- The variables of one record that the sample loop updates (lines 204-217). -/
structure LoopState where
  rareCarrier : String := ""
  gqRef : List TPrecision := []
  gqAlt : List TPrecision := []
  ratioRef : List TPrecision := []
  ratioAlt : List TPrecision := []
  rcRefRatio : List TPrecision := []
  rcAltRatio : List TPrecision := []
  rcRef : List TPrecision := []
  ac0 : Int := 0
  ac1 : Int := 0
  uncalled : Int := 0
  deriving DecidableEq

/-- The statement `++ac[a]` on the two-cell array `ac`; an index outside it has no defined
behaviour. The counters cannot overflow: the genotype buffer holds two cells per sample and
its length is an int. -/
def incAc (st : LoopState) (a : Int) : Option LoopState :=
  if a = 0 then some { st with ac0 := st.ac0 + 1 }
  else if a = 1 then some { st with ac1 := st.ac1 + 1 }
  else none

/-- The genotype-quality entry of sample `i` appended to `v` (lines 225-233 and 246-254). -/
def pushGq (hdr : Header) (b : Buffers) (v : List TPrecision) (i : Nat) : Option (List TPrecision) :=
  if _isKeyPresent hdr "GQ" then
    if _getFormatType hdr "GQ" = BCF_HT_INT then
      (readAt b.gqInt i).bind fun g =>
        if _missing_int32 g then some (v ++ [some 0]) else some (v ++ [some (g : ℚ)])
    else if _getFormatType hdr "GQ" = BCF_HT_REAL then
      (readAt b.gqFloat i).bind fun g =>
        if _missing_float g then some (v ++ [some 0]) else some (v ++ [g.toPrecision])
    else some v
  else some v

/-- The read-depth ratio `(double) rc[i] / (double) (rcl[i] + rcr[i])` of sample `i`. -/
def rcRatio (b : Buffers) (i : Nat) : Option TPrecision :=
  (readAt b.rc i).bind fun c =>
  (readAt b.rcl i).bind fun l =>
  (readAt b.rcr i).bind fun r =>
  (addInt32 l r).map fun d => fdiv c d

/-- The support ratio of sample `i` (lines 239-240 and 257-258). -/
def supportRatio (b : Buffers) (precise : Bool) (i : Nat) : Option TPrecision :=
  if precise then
    (readAt b.rv i).bind fun v =>
    (readAt b.rr i).bind fun r =>
    (addInt32 r v).map fun d => fdiv v d
  else
    (readAt b.dv i).bind fun v =>
    (readAt b.dr i).bind fun r =>
    (addInt32 r v).map fun d => fdiv v d

/-- The non-carrier branch (lines 224-241). -/
def nonCarrier (hdr : Header) (b : Buffers) (precise : Bool) (st : LoopState) (i : Nat) :
    Option LoopState :=
  (pushGq hdr b st.gqRef i).bind fun gqRef =>
  let st := { st with gqRef := gqRef }
  (if _isKeyPresent hdr "RC" then
      (readAt b.rc i).bind fun c =>
      (rcRatio b i).map fun x =>
        { st with rcRef := st.rcRef ++ [some (c : ℚ)], rcRefRatio := st.rcRefRatio ++ [x] }
    else some st).bind fun st =>
  if _isKeyPresent hdr "DV" then
    (supportRatio b precise i).map fun x => { st with ratioRef := st.ratioRef ++ [x] }
  else some st

/-- The heterozygous-carrier branch (lines 244-259). -/
def hetCarrier (hdr : Header) (b : Buffers) (precise : Bool) (st : LoopState) (i : Nat) :
    Option LoopState :=
  (if st.ac1 = 1 then (hdr.samples[i]?).map fun s => { st with rareCarrier := s }
    else some st).bind fun st =>
  (pushGq hdr b st.gqAlt i).bind fun gqAlt =>
  let st := { st with gqAlt := gqAlt }
  (if _isKeyPresent hdr "RC" then
      (rcRatio b i).map fun x => { st with rcAltRatio := st.rcAltRatio ++ [x] }
    else some st).bind fun st =>
  if _isKeyPresent hdr "DV" then
    (supportRatio b precise i).map fun x => { st with ratioAlt := st.ratioAlt ++ [x] }
  else some st

/-- One iteration of the sample loop for sample `i` (lines 219-262). -/
def sampleStep (hdr : Header) (b : Buffers) (precise : Bool) (st : LoopState) (i : Nat) :
    Option LoopState :=
  (readAt b.gt (i * 2)).bind fun g0 =>
  if bcf_gt_allele g0 ≠ -1 then
    (readAt b.gt (i * 2 + 1)).bind fun g1 =>
    if bcf_gt_allele g1 ≠ -1 then
      let gt_type := bcf_gt_allele g0 + bcf_gt_allele g1
      (incAc st (bcf_gt_allele g0)).bind fun st =>
      (incAc st (bcf_gt_allele g1)).bind fun st =>
      if gt_type = 0 then nonCarrier hdr b precise st i
      else if gt_type = 1 then hetCarrier hdr b precise st i
      else some st
    else some { st with uncalled := st.uncalled + 1 }
  else some { st with uncalled := st.uncalled + 1 }

/-- The loop `for (int i = 0; i < bcf_hdr_nsamples(hdr); ++i)` run from state `st` over the
first `n` samples. -/
def sampleLoopFrom (hdr : Header) (b : Buffers) (precise : Bool) (st : LoopState) (n : Nat) :
    Option LoopState :=
  (List.range n).foldlM (sampleStep hdr b precise) st

/-- The whole sample loop of one record, from the initial values of lines 204-217. -/
def sampleLoop (hdr : Header) (b : Buffers) (precise : Bool) : Option LoopState :=
  sampleLoopFrom hdr b precise {} (bcf_hdr_nsamples hdr)

/-! ## Per-record summaries (lines 264-285) -/

/-- The numbers of an evidence vector, when the exact model determines all of its
entries. -/
def finiteValues : List TPrecision → Option (List ℚ)
  | [] => some []
  | x :: xs => x.bind fun q => (finiteValues xs).map fun qs => q :: qs

/-- The call `_getMedian(v, med)` on an evidence vector, with `med` declared as 0 just before
(lines 271-285). For a vector with an entry that the exact model does not determine, the
model determines no median either (`none`): the value of the program there depends on the
entry, since an infinity is ordered like any double and a not-a-number breaks the ordering
that std::nth_element needs. -/
def medianOf (v : List TPrecision) : TPrecision :=
  (finiteValues v).map fun qs => (_getMedian nth_element qs 0).2

/-- Conversion of an int64 difference to int32_t (two's complement narrowing). -/
def toInt32 (x : Int) : Int := (x + 2147483648) % 4294967296 - 2147483648

/-- The size computation of lines 266-268. The position `rec->pos` is zero-based and 64 bits
wide; the difference is narrowed to the int32_t `svlen`. Reading `*svend` or `*inslen` through
an empty or NULL buffer has no defined behaviour. -/
def svlen (b : Buffers) (rec : Record) : Option Int :=
  let svlen : Int := 1
  (match b.svend with
    | some l => (l[0]?).map fun e => toInt32 (e - rec.pos)
    | none => some svlen).bind fun svlen =>
  match b.svt with
  | some t => if t = "INS" then readAt b.inslen 0 else some svlen
  | none => some svlen

/-- The locals computed between the sample loop and the row output (lines 264-285). -/
structure Summary where
  rareCarrier : String
  ac1 : Int
  af : TPrecision
  svlen : Int
  missingRate : TPrecision
  refratio : TPrecision
  altratio : TPrecision
  refgq : TPrecision
  altgq : TPrecision
  rdRatio : TPrecision
  rcMed : TPrecision
  deriving DecidableEq

/-- Division `altRC / refRC` of two doubles (line 283) in the exact model. With an operand
that the model does not determine, or with the divisor 0, the quotient is not determined by
the model (`none`); the program prints some double there, for instance 0 for a finite number
over an infinity. -/
def divPrecision (x y : TPrecision) : TPrecision :=
  match x, y with
  | some a, some b => if b = 0 then none else some (a / b)
  | _, _ => none

/-- Lines 264-285: the summary of a record from the final loop state. -/
def summarise (hdr : Header) (b : Buffers) (rec : Record) (st : LoopState) : Option Summary :=
  let rareCarrier := if st.ac1 ≠ 1 then "NA" else st.rareCarrier
  let af := fdiv st.ac1 (st.ac0 + st.ac1)
  (svlen b rec).map fun len =>
  let missingRate := fdiv st.uncalled (bcf_hdr_nsamples hdr)
  let refratio := medianOf st.ratioRef
  let altratio := medianOf st.ratioAlt
  let refgq := medianOf st.gqRef
  let altgq := medianOf st.gqAlt
  let altRC := medianOf st.rcAltRatio
  let refRC := medianOf st.rcRefRatio
  let rdRatio := divPrecision altRC refRC
  let rcMed := medianOf st.rcRef
  { rareCarrier := rareCarrier, ac1 := st.ac1, af := af, svlen := len,
    missingRate := missingRate, refratio := refratio, altratio := altratio, refgq := refgq,
    altgq := altgq, rdRatio := rdRatio, rcMed := rcMed }

/-! ## Row output (lines 169-174, 287-315) -/

/-- A value sent to the output stream, by the type of the expression printed. -/
inductive Cell where
  | text (s : String)
  | int (n : Int)
  | real (x : TPrecision)
  | float (x : BcfFloat)
  | bool (b : Bool)
  deriving DecidableEq

/-- The dispatch on the column name in the row loop (lines 290-313). The outer `none` is a
read through a NULL pointer; `some none` is a name that no branch matches, for which nothing
is printed. -/
def writeColumn (hdr : Header) (rec : Record) (b : Buffers) (precise : Bool) (s : Summary)
    (cHead : String) : Option (Option Cell) :=
  if cHead = "chr" then some (some (.text rec.chrom))
  else if cHead = "start" then some (some (.int (rec.pos + 1)))
  else if cHead = "end" then
    if _isKeyPresent hdr "END" then (readAt b.svend 0).map fun e => some (.int e)
    else some (some (.int (rec.pos + 1)))
  else if cHead = "id" then some (some (.text rec.id))
  else if cHead = "size" then some (some (.int s.svlen))
  else if cHead = "vac" then some (some (.int s.ac1))
  else if cHead = "vaf" then some (some (.real s.af))
  else if cHead = "singleton" then some (some (.text s.rareCarrier))
  else if cHead = "missingrate" then some (some (.real s.missingRate))
  else if cHead = "svtype" then b.svt.map fun t => some (.text t)
  else if cHead = "precise" then some (some (.bool precise))
  else if cHead = "ci" then (readAt b.cipos 1).map fun c => some (.int c)
  else if cHead = "refratio" then some (some (.real s.refratio))
  else if cHead = "altratio" then some (some (.real s.altratio))
  else if cHead = "refgq" then some (some (.real s.refgq))
  else if cHead = "altgq" then some (some (.real s.altgq))
  else if cHead = "rdratio" then some (some (.real s.rdRatio))
  else if cHead = "medianrc" then some (some (.real s.rcMed))
  else if cHead = "fic" then (readAt b.fic 0).map fun x => some (.float x)
  else if cHead = "rsq" then (readAt b.rsq 0).map fun x => some (.float x)
  else if cHead = "hwepval" then (readAt b.hwepval 0).map fun x => some (.float x)
  else some none

/-- The row loop over the column names (lines 288-314): one field per name, in order. -/
def writeRow (hdr : Header) (rec : Record) (b : Buffers) (precise : Bool) (s : Summary) :
    List String → Option (List (Option Cell))
  | [] => some []
  | cHead :: rest =>
    (writeColumn hdr rec b precise s cHead).bind fun x =>
      (writeRow hdr rec b precise s rest).map fun xs => x :: xs

/-- The header row (lines 170-174): the column names. -/
def writeHeader (hdr : Header) : List String := cHeader hdr

/-- One iteration of the record loop (lines 179-316): the buffers after the record and its
output row. -/
def processRecord (hdr : Header) (b : Buffers) (rec : Record) :
    Option (Buffers × List (Option Cell)) :=
  let e := extractFields hdr rec b
  (sampleLoop hdr e.1 e.2).bind fun st =>
  (summarise hdr e.1 rec st).bind fun s =>
  (writeRow hdr rec e.1 e.2 s (cHeader hdr)).map fun row => (e.1, row)

/-- The record loop from buffers `b`: the rows of all records, in input order. -/
def processRecords (hdr : Header) : Buffers → List Record → Option (List (List (Option Cell)))
  | _, [] => some []
  | b, rec :: rest =>
    (processRecord hdr b rec).bind fun r =>
      (processRecords hdr r.1 rest).map fun rows => r.2 :: rows

/-- The data rows of a whole run: every buffer starts as NULL (lines 99-131). -/
def run (hdr : Header) (recs : List Record) : Option (List (List (Option Cell))) :=
  processRecords hdr {} recs

/-! ## Reference notions for the sample loop -/

/-- The decoded pair of calls of sample `i` in the genotype buffer. -/
def callPair (b : Buffers) (i : Nat) : Int × Int :=
  (bcf_gt_allele (((b.gt.getD [])[i * 2]?).getD 0),
   bcf_gt_allele (((b.gt.getD [])[i * 2 + 1]?).getD 0))

/-- Both calls of the pair are made. -/
def isCalled (p : Int × Int) : Bool := p.1 != -1 && p.2 != -1

/-- How many of the two calls of a fully called pair are the allele `a`; 0 for a pair with a
no-call. -/
def alleleCopies (a : Int) (p : Int × Int) : Nat :=
  if isCalled p then (if p.1 = a then 1 else 0) + (if p.2 = a then 1 else 0) else 0

/-- Copies of allele `a` over the fully called samples among the first `n`. -/
def countAllele (a : Int) (b : Buffers) (n : Nat) : Nat :=
  ((List.range n).map fun i => alleleCopies a (callPair b i)).sum

/-- Samples with a no-call among the first `n`. -/
def countUncalled (b : Buffers) (n : Nat) : Nat :=
  ((List.range n).map fun i => if isCalled (callPair b i) then 0 else 1).sum

/-- The samples among the first `n` that carry the alt allele. -/
def carriers (b : Buffers) (n : Nat) : List Nat :=
  (List.range n).filter fun i => decide (0 < alleleCopies 1 (callPair b i))

/-- Buffers whose row reads are defined for the columns of the header: each of END, SVTYPE,
CIPOS, FIC, RSQ and HWEpval that is declared has its cell available. -/
def rowReadable (hdr : Header) (b : Buffers) : Bool :=
  (!_isKeyPresent hdr "END" || (readAt b.svend 0).isSome) &&
  (!_isKeyPresent hdr "SVTYPE" || b.svt.isSome) &&
  (!_isKeyPresent hdr "CIPOS" || (readAt b.cipos 1).isSome) &&
  (!_isKeyPresent hdr "FIC" || (readAt b.fic 0).isSome) &&
  (!_isKeyPresent hdr "RSQ" || (readAt b.rsq 0).isSome) &&
  (!_isKeyPresent hdr "HWEpval" || (readAt b.hwepval 0).isSome)

/-! ## Concrete inputs -/

/-- A header that declares no optional annotation, with the given samples. -/
def plainHeader (samples : List String) : Header :=
  { ids := [], formatType := fun _ => 0, samples := samples }

/-- Buffers that hold only the genotype cells `gt`. -/
def genotypeBuffers (gt : List Int) : Buffers := { gt := some gt }

/-- A header that declares END, SVTYPE and an integer GQ, with five samples. -/
def sampleHeader : Header :=
  { ids := ["END", "SVTYPE", "GQ"], formatType := fun _ => 1,
    samples := ["s1", "s2", "s3", "s4", "s5"] }

/-- A deletion at the one-based position 1000 with END 1050; the calls of the five samples
are 0/0, 0/0, 0/1, 1/1 and ./. -/
def sampleRecord : Record where
  chrom := "1"
  pos := 999
  id := "DEL1"
  infoInt32 := fun t => if t = "END" then some [1050] else none
  infoFloat := fun _ => none
  infoString := fun t => if t = "SVTYPE" then some "DEL" else none
  infoFlag := fun _ => false
  formatInt32 := fun t =>
    if t = "GT" then some [2, 2, 2, 2, 2, 4, 4, 4, 0, 0]
    else if t = "GQ" then some [10, 20, 30, 40, 0]
    else none
  formatFloat := fun _ => none

/-! ## Defined behaviour -/

/-- The reads that the non-carrier and the heterozygous branch make for sample `i` are
defined: the genotype-quality cell of the declared encoding, the three read-count cells when
RC is declared, and the two cells of the support ratio when DV is declared, with sums inside
the int32_t range. -/
def evidenceReadable (hdr : Header) (b : Buffers) (precise : Bool) (i : Nat) : Bool :=
  (pushGq hdr b [] i).isSome &&
  (!_isKeyPresent hdr "RC" || (rcRatio b i).isSome) &&
  (!_isKeyPresent hdr "DV" || (supportRatio b precise i).isSome)

/-- The iteration of sample `i` has defined behaviour: the genotype cells that are read exist,
a fully called pair has both allele indices in 0, 1, and the reads of its branch are
defined. -/
def sampleReadable (hdr : Header) (b : Buffers) (precise : Bool) (i : Nat) : Bool :=
  match readAt b.gt (i * 2) with
  | none => false
  | some g0 =>
    if bcf_gt_allele g0 = -1 then true
    else
      match readAt b.gt (i * 2 + 1) with
      | none => false
      | some g1 =>
        if bcf_gt_allele g1 = -1 then true
        else
          decide (bcf_gt_allele g0 = 0 ∨ bcf_gt_allele g0 = 1) &&
          decide (bcf_gt_allele g1 = 0 ∨ bcf_gt_allele g1 = 1) &&
          (decide (bcf_gt_allele g0 + bcf_gt_allele g1 = 2) || evidenceReadable hdr b precise i)

/-- The sample loop has defined behaviour on every sample of the header. -/
def loopReadable (hdr : Header) (b : Buffers) (precise : Bool) : Bool :=
  (List.range (bcf_hdr_nsamples hdr)).all (sampleReadable hdr b precise)

/-- The processing of record `rec` from buffers `b0` has defined behaviour: the sample loop,
the size computation and the row reads, all on the buffers after field extraction. -/
def recordReadable (hdr : Header) (b0 : Buffers) (rec : Record) : Bool :=
  loopReadable hdr (extractFields hdr rec b0).1 (extractFields hdr rec b0).2 &&
  (svlen (extractFields hdr rec b0).1 rec).isSome &&
  rowReadable hdr (extractFields hdr rec b0).1

/-! ## Reference notions for the evidence vectors -/

/-- The seven evidence vectors of a loop state. -/
def evidence (st : LoopState) :
    List TPrecision × List TPrecision × List TPrecision × List TPrecision ×
      List TPrecision × List TPrecision × List TPrecision :=
  (st.gqRef, st.gqAlt, st.ratioRef, st.ratioAlt, st.rcRefRatio, st.rcAltRatio, st.rcRef)

/-- The genotype quality is declared with the integer or with the real encoding. -/
def gqDeclared (hdr : Header) : Bool :=
  _isKeyPresent hdr "GQ" &&
    (decide (_getFormatType hdr "GQ" = BCF_HT_INT) || decide (_getFormatType hdr "GQ" = BCF_HT_REAL))

/-- The vector `v'` is `v` with one entry appended when `declared` holds, and `v` itself
otherwise. -/
def AddsOne (declared : Bool) (v v' : List TPrecision) : Prop :=
  if declared then ∃ x, v' = v ++ [x] else v' = v

/-- The samples among the first `n` whose two calls are both the reference allele. -/
def nonCarriers (b : Buffers) (n : Nat) : List Nat :=
  (List.range n).filter fun i => decide (alleleCopies 0 (callPair b i) = 2)

/-- The samples among the first `n` with exactly one alt allele. -/
def hetCarriers (b : Buffers) (n : Nat) : List Nat :=
  (List.range n).filter fun i => decide (alleleCopies 1 (callPair b i) = 1)

/-- Field `c` of row `r` of the rows of a run. -/
def rowField (rows : Option (List (List (Option Cell)))) (r c : Nat) : Option (Option Cell) :=
  rows.bind fun rs => (rs[r]?).bind fun row => row[c]?

/-! ## Records that are well formed for a header -/

/-- The record carries at least `k` values for the integer INFO key when it is declared. -/
def hasInfoInt (hdr : Header) (rec : Record) (key : String) (k : Nat) : Bool :=
  !_isKeyPresent hdr key ||
    (match rec.infoInt32 key with
      | some vs => decide (k ≤ vs.length)
      | none => false)

/-- The record carries a value for the float INFO key when it is declared. -/
def hasInfoFloat (hdr : Header) (rec : Record) (key : String) : Bool :=
  !_isKeyPresent hdr key ||
    (match rec.infoFloat key with
      | some vs => decide (1 ≤ vs.length)
      | none => false)

/-- The record carries one integer cell per sample for the FORMAT key when it is declared. -/
def hasFormatInt (hdr : Header) (rec : Record) (key : String) : Bool :=
  !_isKeyPresent hdr key ||
    (match rec.formatInt32 key with
      | some vs => decide (vs.length = bcf_hdr_nsamples hdr)
      | none => false)

/-- The record is well formed for the declared annotations: two genotype cells per sample,
and for every key that the header declares the record carries its values, one cell per
sample for a FORMAT key. -/
def wellFormedRecord (hdr : Header) (rec : Record) : Bool :=
  (match rec.formatInt32 "GT" with
    | some vs => decide (vs.length = 2 * bcf_hdr_nsamples hdr)
    | none => false) &&
  hasInfoInt hdr rec "END" 1 && hasInfoInt hdr rec "INSLEN" 1 && hasInfoInt hdr rec "CIPOS" 2 &&
  hasInfoFloat hdr rec "FIC" && hasInfoFloat hdr rec "RSQ" && hasInfoFloat hdr rec "HWEpval" &&
  (!_isKeyPresent hdr "SVTYPE" || (rec.infoString "SVTYPE").isSome) &&
  (!gqDeclared hdr ||
    (if _getFormatType hdr "GQ" = BCF_HT_INT then
      (match rec.formatInt32 "GQ" with
        | some vs => decide (vs.length = bcf_hdr_nsamples hdr)
        | none => false)
    else
      (match rec.formatFloat "GQ" with
        | some vs => decide (vs.length = bcf_hdr_nsamples hdr)
        | none => false))) &&
  hasFormatInt hdr rec "RC" && hasFormatInt hdr rec "RCL" && hasFormatInt hdr rec "RCR" &&
  hasFormatInt hdr rec "DV" && hasFormatInt hdr rec "DR" && hasFormatInt hdr rec "RV" &&
  hasFormatInt hdr rec "RR"

/-! ## More concrete inputs -/

/-- A header that declares END, SVTYPE and INSLEN, with one sample. -/
def sizeHeader : Header :=
  { ids := ["END", "SVTYPE", "INSLEN"], formatType := fun _ => 1, samples := ["s1"] }

/-- A record of one sample with the call 0/1 at the zero-based position `pos`, with the
optional INFO values END, SVTYPE and INSLEN as given. -/
def sizeRecord (pos : Int) (svend : Option Int) (svt : Option String) (inslen : Option Int) :
    Record where
  chrom := "1"
  pos := pos
  id := "SV"
  infoInt32 := fun t =>
    if t = "END" then svend.map fun e => [e]
    else if t = "INSLEN" then inslen.map fun l => [l]
    else none
  infoFloat := fun _ => none
  infoString := fun t => if t = "SVTYPE" then svt else none
  infoFlag := fun _ => false
  formatInt32 := fun t => if t = "GT" then some [2, 4] else none
  formatFloat := fun _ => none

/-- A header that declares the keys `ids`, with the integer type code for every FORMAT key,
and the samples `samples`. -/
def headerOf (ids samples : List String) : Header :=
  { ids := ids, formatType := fun _ => BCF_HT_INT, samples := samples }

/-- A record at the zero-based position 999 without INFO values other than the flags
`flags`, with the genotype cells `gt` and the integer FORMAT values `fmt`. -/
def formatRecord (gt : List Int) (fmt : List (String × List Int)) (flags : List String) :
    Record where
  chrom := "1"
  pos := 999
  id := "SV"
  infoInt32 := fun _ => none
  infoFloat := fun _ => none
  infoString := fun _ => none
  infoFlag := fun t => flags.contains t
  formatInt32 := fun t => if t = "GT" then some gt else fmt.lookup t
  formatFloat := fun _ => none

/-- A header that declares GQ with the real type code, and the samples `samples`. -/
def realGqHeader (samples : List String) : Header :=
  { ids := ["GQ"], formatType := fun _ => BCF_HT_REAL, samples := samples }

/-- A record at the zero-based position 999 with the genotype cells `gt` and the real
genotype qualities `gq`. -/
def realGqRecord (gt : List Int) (gq : List BcfFloat) : Record where
  chrom := "1"
  pos := 999
  id := "SV"
  infoInt32 := fun _ => none
  infoFloat := fun _ => none
  infoString := fun _ => none
  infoFlag := fun _ => false
  formatInt32 := fun t => if t = "GT" then some gt else none
  formatFloat := fun t => if t = "GQ" then some gq else none

/-! # Properties -/

/-! ## Median -/

/-- A list splits at a position that it has. -/
theorem split_at_index {α : Type} (w : List α) (k : Nat) (x : α) (h : w[k]? = some x) :
    w = w.take k ++ x :: w.drop (k + 1) ∧ (w.take k).length = k := by
  obtain ⟨hk, hx⟩ := List.getElem?_eq_some.mp h
  constructor
  · have := List.take_append_drop k w
    rw [List.drop_eq_getElem_cons hk, hx] at this
    exact this.symm
  · simp [List.length_take]; omega

/-- Partitioning around a position, stated on the three pieces of the list. -/
theorem partitionedAt_iff {α : Type} [LinearOrder α] (w : List α) (k : Nat) :
    PartitionedAt w k ↔ ∃ a x b, w = a ++ x :: b ∧ a.length = k ∧
      (∀ u ∈ a, u ≤ x) ∧ (∀ u ∈ b, x ≤ u) := by
  constructor
  · intro h
    unfold PartitionedAt at h
    cases hx : w[k]? with
    | none => simp [hx] at h
    | some x =>
      rw [hx] at h
      obtain ⟨he, hl⟩ := split_at_index w k x hx
      exact ⟨w.take k, x, w.drop (k + 1), he, hl, h.1, h.2⟩
  · rintro ⟨a, x, b, rfl, rfl, ha, hb⟩
    have hget : (a ++ x :: b)[a.length]? = some x := by
      rw [List.getElem?_append_right (le_refl _)]; simp
    unfold PartitionedAt
    rw [hget]
    have ht : (a ++ x :: b).take a.length = a := by simp
    have hd : (a ++ x :: b).drop (a.length + 1) = b := by simp
    rw [ht, hd]
    exact ⟨ha, hb⟩

/-- Quickselect with enough recursion bound returns the elements partitioned around `k`. -/
theorem nthElementAux_post {α : Type} [LinearOrder α] (fuel : Nat) : ∀ (v : List α) (k : Nat), v.length ≤ fuel → k < v.length →
    NthElementPost v (nthElementAux fuel v k) k := by
  induction fuel with
  | zero => intro v k h1 h2; omega
  | succ fuel ih =>
    intro v k hlen hk
    cases v with
    | nil => simp at hk
    | cons p rest =>
      have hperm : (rest.filter (fun x => decide (x < p)) ++ rest.filter (fun x => !decide (x < p))).Perm rest :=
        List.filter_append_perm _ _
      have hlo : ∀ u ∈ rest.filter (fun x => decide (x < p)), u < p := by
        intro u hu; simpa using (List.mem_filter.mp hu).2
      have hhi : ∀ u ∈ rest.filter (fun x => !decide (x < p)), p ≤ u := by
        intro u hu; simpa using (List.mem_filter.mp hu).2
      have hll := hperm.length_eq
      simp only [List.length_append, List.length_cons] at hll hlen hk
      simp only [nthElementAux]
      generalize rest.filter (fun x => decide (x < p)) = lo at *
      generalize rest.filter (fun x => !decide (x < p)) = hi at *
      have hfull : (lo ++ p :: hi).Perm (p :: rest) :=
        (List.perm_middle).trans (List.Perm.cons p hperm)
      by_cases h1 : k < lo.length
      · rw [if_pos h1]
        obtain ⟨hp, hpart⟩ := ih lo k (by omega) h1
        refine ⟨((List.Perm.append_right _ hp).trans hfull), ?_⟩
        obtain ⟨a, x, b, he, hal, ha, hb⟩ := (partitionedAt_iff _ _).mp hpart
        rw [partitionedAt_iff]
        refine ⟨a, x, b ++ p :: hi, by rw [he]; simp, hal, ha, ?_⟩
        have hxlo : x < p := hlo x (hp.subset (by rw [he]; simp))
        intro u hu
        rcases List.mem_append.mp hu with hub | hup
        · exact hb u hub
        · rcases List.mem_cons.mp hup with rfl | huh
          · exact le_of_lt hxlo
          · exact le_trans (le_of_lt hxlo) (hhi u huh)
      · rw [if_neg h1]
        by_cases h2 : k = lo.length
        · rw [if_pos h2]
          refine ⟨hfull, ?_⟩
          rw [partitionedAt_iff]
          exact ⟨lo, p, hi, rfl, h2.symm, fun u hu => le_of_lt (hlo u hu), hhi⟩
        · rw [if_neg h2]
          obtain ⟨hp, hpart⟩ := ih hi (k - lo.length - 1) (by omega) (by omega)
          refine ⟨((List.Perm.append_left _ (List.Perm.cons p hp)).trans hfull), ?_⟩
          obtain ⟨a, x, b, he, hal, ha, hb⟩ := (partitionedAt_iff _ _).mp hpart
          rw [partitionedAt_iff]
          refine ⟨lo ++ p :: a, x, b, by rw [he]; simp, by simp [hal]; omega, ?_, hb⟩
          have hxhi : p ≤ x := hhi x (hp.subset (by rw [he]; simp))
          intro u hu
          rcases List.mem_append.mp hu with hul | hup
          · exact le_trans (le_of_lt (hlo u hul)) hxhi
          · rcases List.mem_cons.mp hup with rfl | hua
            · exact hxhi
            · exact ha u hua

/-- The quickselect model meets the post-condition of std::nth_element. -/
theorem nth_element_post {α : Type} [LinearOrder α] (v : List α) (k : Nat) (hk : k < v.length) :
    NthElementPost v (nth_element v k) k :=
  nthElementAux_post v.length v k le_rfl hk


/-- Around a partitioning element `x` at most `k` elements are smaller than `x` and more than
`k` are at most `x`. -/
theorem count_of_partitioned {α : Type} [LinearOrder α] (a b : List α) (x : α)
    (ha : ∀ u ∈ a, u ≤ x) (hb : ∀ u ∈ b, x ≤ u) :
    (a ++ x :: b).countP (fun u => decide (u < x)) ≤ a.length ∧
    a.length + 1 ≤ (a ++ x :: b).countP (fun u => decide (u ≤ x)) := by
  constructor
  · rw [List.countP_append, List.countP_cons]
    have h0 : b.countP (fun u => decide (u < x)) = 0 := by
      rw [List.countP_eq_zero]
      intro u hu
      simpa using hb u hu
    have h1 : a.countP (fun u => decide (u < x)) ≤ a.length := List.countP_le_length _
    simp [h0]
    exact h1
  · rw [List.countP_append, List.countP_cons]
    have h1 : a.countP (fun u => decide (u ≤ x)) = a.length := by
      rw [List.countP_eq_length]
      intro u hu
      simpa using ha u hu
    simp [h1]

/-- In a sorted list, an element above position `k` has more than `k` elements below it. -/
theorem count_of_sorted_lt {α : Type} [LinearOrder α] (a b : List α) (x y : α)
    (hs : (a ++ y :: b).Sorted (· ≤ ·)) (hyx : y < x) :
    a.length + 1 ≤ (a ++ y :: b).countP (fun u => decide (u < x)) := by
  have hp := List.pairwise_append.mp hs
  rw [List.countP_append, List.countP_cons]
  have h1 : a.countP (fun u => decide (u < x)) = a.length := by
    rw [List.countP_eq_length]
    intro u hu
    have : u ≤ y := hp.2.2 u hu y (List.mem_cons_self _ _)
    simpa using lt_of_le_of_lt this hyx
  simp [h1, hyx]

/-- In a sorted list, at most `k` elements are at most a value below the one at `k`. -/
theorem count_of_sorted_gt {α : Type} [LinearOrder α] (a b : List α) (x y : α)
    (hs : (a ++ y :: b).Sorted (· ≤ ·)) (hxy : x < y) :
    (a ++ y :: b).countP (fun u => decide (u ≤ x)) ≤ a.length := by
  have hp := List.pairwise_append.mp hs
  rw [List.countP_append]
  have h0 : (y :: b).countP (fun u => decide (u ≤ x)) = 0 := by
    rw [List.countP_eq_zero]
    intro u hu
    have hyu : y ≤ u := by
      rcases List.mem_cons.mp hu with rfl | hub
      · exact le_rfl
      · exact (List.pairwise_cons.mp hp.2.1).1 u hub
    simpa using lt_of_lt_of_le hxy hyu
  have h1 : a.countP (fun u => decide (u ≤ x)) ≤ a.length := List.countP_le_length _
  omega

/-- An element around which a permutation of `v` is partitioned at position `k` is the
element at position `k` of any ascending arrangement of `v`. -/
theorem partitioned_eq_sorted {α : Type} [LinearOrder α] (v w s : List α) (k : Nat) (x y : α)
    (hw : w.Perm v) (hpart : PartitionedAt w k) (hx : w[k]? = some x)
    (hsv : s.Perm v) (hs : s.Sorted (· ≤ ·)) (hy : s[k]? = some y) : x = y := by
  unfold PartitionedAt at hpart
  rw [hx] at hpart
  obtain ⟨hwe, hwl⟩ := split_at_index w k x hx
  obtain ⟨hse, hsl⟩ := split_at_index s k y hy
  have hc := count_of_partitioned (w.take k) (w.drop (k + 1)) x hpart.1 hpart.2
  rw [← hwe, hwl] at hc
  have hperm : w.Perm s := hw.trans hsv.symm
  rcases lt_trichotomy x y with hlt | heq | hgt
  · have := count_of_sorted_gt (s.take k) (s.drop (k + 1)) x y (hse ▸ hs) hlt
    rw [← hse, hsl] at this
    have hceq := hperm.countP_eq (fun u => decide (u ≤ x))
    omega
  · exact heq
  · have := count_of_sorted_lt (s.take k) (s.drop (k + 1)) x y (hse ▸ hs) hgt
    rw [← hse, hsl] at this
    have hceq := hperm.countP_eq (fun u => decide (u < x))
    omega


/-- The value that `_getMedian` stores for a non-empty input is the cell at the middle
position of what `std::nth_element` leaves. -/
theorem getMedian_snd {α : Type} [Zero α] (nth : List α → Nat → List α) (v : List α) (med : α)
    (hne : v ≠ []) :
    (_getMedian nth v med).2 = (nth v (v.length / 2)).getD (v.length / 2) 0 := by
  have hlen : v.length ≠ 0 := fun h => hne (List.length_eq_zero.mp h)
  simp [_getMedian, hlen]

/-- With a conforming `std::nth_element`, the median of a non-empty input is the element at
position `n / 2` of the sorted input. -/
theorem getMedian_eq_sorted {α : Type} [LinearOrder α] [Zero α] (nth : List α → Nat → List α) (v : List α) (med : α)
    (hne : v ≠ [])
    (hpost : NthElementPost v (nth v (v.length / 2)) (v.length / 2)) :
    (sortedAscending v)[v.length / 2]? = some (_getMedian nth v med).2 := by
  have hpos : 0 < v.length := List.length_pos.mpr hne
  have hk : v.length / 2 < v.length := Nat.div_lt_self hpos (by decide)
  have hsperm : (sortedAscending v).Perm v := List.perm_insertionSort _ v
  have hssorted : (sortedAscending v).Sorted (· ≤ ·) := List.sorted_insertionSort _ v
  have hslen : (sortedAscending v).length = v.length := hsperm.length_eq
  have hwlen : (nth v (v.length / 2)).length = v.length := hpost.1.length_eq
  have hy : (sortedAscending v)[v.length / 2]? = some ((sortedAscending v)[v.length / 2]) :=
    List.getElem?_eq_getElem (by omega)
  have hx : (nth v (v.length / 2))[v.length / 2]? = some ((nth v (v.length / 2))[v.length / 2]) :=
    List.getElem?_eq_getElem (by omega)
  have hxy := partitioned_eq_sorted v _ _ _ _ _ hpost.1 hpost.2 hx hsperm hssorted hy
  rw [getMedian_snd nth v med hne, hy, ← hxy, List.getD_eq_getElem?_getD, hx]
  rfl


/-- Claim C1. For a non-empty list `v` of `n` numbers, `_getMedian` returns the element at
the zero-based position `n / 2` of `v` sorted in ascending order, for every implementation
of `std::nth_element` that meets its post-condition; the value does not depend on the order
of the input: every rearrangement `u` of `v` gives the same median. -/
theorem getMedian_is_sorted_middle {α : Type} [LinearOrder α] [Zero α]
    (nth : List α → Nat → List α) (v u : List α) (med med' : α)
    (hne : v ≠ []) (hperm : u.Perm v)
    (hv : NthElementPost v (nth v (v.length / 2)) (v.length / 2))
    (hu : NthElementPost u (nth u (u.length / 2)) (u.length / 2)) :
    (sortedAscending v)[v.length / 2]? = some (_getMedian nth v med).2 ∧
    (_getMedian nth u med').2 = (_getMedian nth v med).2 := by
  have h1 := getMedian_eq_sorted nth v med hne hv
  have hune : u ≠ [] := by
    intro h
    rw [h] at hperm
    exact hne (List.Perm.nil_eq hperm).symm
  have h2 := getMedian_eq_sorted nth u med' hune hu
  have hs : sortedAscending u = sortedAscending v :=
    List.eq_of_perm_of_sorted
      (((List.perm_insertionSort _ u).trans hperm).trans (List.perm_insertionSort _ v).symm)
      (List.sorted_insertionSort _ u) (List.sorted_insertionSort _ v)
  rw [hs, hperm.length_eq, h1] at h2
  exact ⟨h1, (Option.some.inj h2).symm⟩

/-- Claim C1 at the inputs [1, 2, 3, 4] and [4, 1, 3, 2] with quickselect: both medians are
the element at position 2 of the sorted list. -/
theorem getMedian_is_sorted_middle_witness :
    (sortedAscending [1, 2, 3, 4])[([1, 2, 3, 4] : List Int).length / 2]? =
      some (_getMedian nth_element [1, 2, 3, 4] (0 : Int)).2 ∧
    (_getMedian nth_element [4, 1, 3, 2] (7 : Int)).2 =
      (_getMedian nth_element [1, 2, 3, 4] (0 : Int)).2 :=
  getMedian_is_sorted_middle nth_element [1, 2, 3, 4] [4, 1, 3, 2] 0 7 (by decide) (by decide)
    (nth_element_post _ _ (by decide)) (nth_element_post _ _ (by decide))

/-- Claim C2 as stated fails: for [1, 2, 3, 4] the lower of the two central values is 2,
and `_getMedian` returns 3. -/
theorem getMedian_lower_middle_counterexample :
    (sortedAscending ([1, 2, 3, 4] : List ℚ))[4 / 2 - 1]? = some 2 ∧
    (_getMedian nth_element ([1, 2, 3, 4] : List ℚ) 0).2 = 3 ∧
    (_getMedian nth_element ([1, 2, 3, 4] : List ℚ) 0).2 ≠ 2 := by
  decide

/-- Claim C2, amended. For an even-length non-empty input `_getMedian` returns the upper of
the two central values of the sorted input, the element at position `n / 2`, and no value
between the two; with quickselect the median of [1, 2, 3, 4] is 3 and that of [5] is 5. -/
theorem getMedian_upper_middle {α : Type} [LinearOrder α] [Zero α]
    (nth : List α → Nat → List α) (v : List α) (med : α)
    (hne : v ≠ []) (heven : v.length % 2 = 0)
    (hv : NthElementPost v (nth v (v.length / 2)) (v.length / 2)) :
    (∃ lo hi, (sortedAscending v)[v.length / 2 - 1]? = some lo ∧
      (sortedAscending v)[v.length / 2]? = some hi ∧ lo ≤ hi ∧
      (_getMedian nth v med).2 = hi) ∧
    (_getMedian nth_element ([1, 2, 3, 4] : List ℚ) 0).2 = 3 ∧
    (_getMedian nth_element ([5] : List ℚ) 0).2 = 5 := by
  refine ⟨?_, by decide, by decide⟩
  have hpos : 0 < v.length := List.length_pos.mpr hne
  have hslen : (sortedAscending v).length = v.length := (List.perm_insertionSort _ v).length_eq
  have hssorted : (sortedAscending v).Sorted (· ≤ ·) := List.sorted_insertionSort _ v
  have h1 := getMedian_eq_sorted nth v med hne hv
  have hlo : v.length / 2 - 1 < (sortedAscending v).length := by omega
  have hhi : v.length / 2 < (sortedAscending v).length := by omega
  refine ⟨(sortedAscending v)[v.length / 2 - 1], (_getMedian nth v med).2,
    List.getElem?_eq_getElem hlo, h1, ?_, rfl⟩
  have hget : (sortedAscending v)[v.length / 2] = (_getMedian nth v med).2 := by
    have := List.getElem?_eq_getElem hhi
    rw [h1] at this
    exact (Option.some.inj this).symm
  rw [← hget]
  exact List.Sorted.rel_get_of_le hssorted (a := ⟨v.length / 2 - 1, hlo⟩)
    (b := ⟨v.length / 2, hhi⟩) (by simp)

/-- Claim C2, amended, at the input [1, 2, 3, 4] with quickselect. -/
theorem getMedian_upper_middle_witness :
    (∃ lo hi, (sortedAscending ([1, 2, 3, 4] : List ℚ))[([1, 2, 3, 4] : List ℚ).length / 2 - 1]?
        = some lo ∧
      (sortedAscending ([1, 2, 3, 4] : List ℚ))[([1, 2, 3, 4] : List ℚ).length / 2]? = some hi ∧
      lo ≤ hi ∧ (_getMedian nth_element ([1, 2, 3, 4] : List ℚ) 9).2 = hi) ∧
    (_getMedian nth_element ([1, 2, 3, 4] : List ℚ) 0).2 = 3 ∧
    (_getMedian nth_element ([5] : List ℚ) 0).2 = 5 :=
  getMedian_upper_middle nth_element [1, 2, 3, 4] 9 (by decide) (by decide)
    (nth_element_post _ _ (by decide))

/-- Claim C3. For the empty input `_getMedian` returns 0 and leaves the vector empty,
whatever value `med` the output variable held before the call and whatever implementation of
`std::nth_element` is linked. -/
theorem getMedian_empty {α : Type} [LinearOrder α] [Zero α]
    (nth : List α → Nat → List α) (med : α) :
    _getMedian nth ([] : List α) med = ([], 0) := by
  simp [_getMedian]

/-! ## Column schema -/

/-- A key is present exactly when the identifier dictionary holds it. -/
theorem isKeyPresent_iff (hdr : Header) (key : String) :
    _isKeyPresent hdr key = true ↔ key ∈ hdr.ids := by
  unfold _isKeyPresent bcf_hdr_id2int
  by_cases h : key ∈ hdr.ids
  · simp [h]
  · simp [h]

/-- Removing the key `a` from the header removes it from the present keys and no other. -/
theorem isKeyPresent_removeKey (hdr : Header) (a key : String) :
    _isKeyPresent (removeKey hdr a) key = (_isKeyPresent hdr key && (key != a)) := by
  rw [Bool.eq_iff_iff]
  simp [isKeyPresent_iff, removeKey, List.mem_filter]

/-- The column header in closed form: the nine fixed names, then the optional names whose
key is present, in registration order. -/
theorem cHeader_eq (hdr : Header) :
    cHeader hdr = fixedColumns ++
      (gatedColumns.filter (fun c => _isKeyPresent hdr c.2)).map (fun c => c.1) := by
  simp only [cHeader, buildColumnMap, gatedColumns, List.filter, fixedColumns]
  generalize _isKeyPresent hdr "SVTYPE" = b1
  generalize _isKeyPresent hdr "IMPRECISE" = b2
  generalize _isKeyPresent hdr "CIPOS" = b3
  generalize _isKeyPresent hdr "FIC" = b4
  generalize _isKeyPresent hdr "RSQ" = b5
  generalize _isKeyPresent hdr "HWEpval" = b6
  generalize _isKeyPresent hdr "GQ" = b7
  generalize _isKeyPresent hdr "RC" = b8
  generalize _isKeyPresent hdr "DV" = b9
  revert b1 b2 b3 b4 b5 b6 b7 b8 b9
  decide

/-- No optional column carries the name of a fixed column. -/
theorem fixed_not_gated : ∀ c ∈ fixedColumns, ∀ p ∈ gatedColumns, p.1 ≠ c := by
  decide

/-- The name of an optional column determines its gating key. -/
theorem gated_key_unique : ∀ p ∈ gatedColumns, ∀ q ∈ gatedColumns, p.1 = q.1 → p.2 = q.2 := by
  decide

/-- An optional column is in the column header exactly when its key is present. -/
theorem gated_mem_cHeader (hdr : Header) (p : String × String) (hp : p ∈ gatedColumns) :
    p.1 ∈ cHeader hdr ↔ _isKeyPresent hdr p.2 = true := by
  rw [cHeader_eq, List.mem_append, List.mem_map]
  constructor
  · rintro (hfix | ⟨q, hq, hqp⟩)
    · exact absurd rfl (fixed_not_gated p.1 hfix p hp)
    · obtain ⟨hqg, hqk⟩ := List.mem_filter.mp hq
      rw [← gated_key_unique q hqg p hp hqp]
      exact hqk
  · intro h
    exact Or.inr ⟨p, List.mem_filter.mpr ⟨hp, h⟩, rfl⟩

/-- Dropping the columns gated on `a` from the column header gives the column header of the
header without `a`. -/
theorem cHeader_removeKey (hdr : Header) (a : String) :
    cHeader (removeKey hdr a) =
      (cHeader hdr).filter (fun c => !decide ((c, a) ∈ gatedColumns)) := by
  rw [cHeader_eq, cHeader_eq, List.filter_append]
  have hfix : fixedColumns.filter (fun c => !decide ((c, a) ∈ gatedColumns)) = fixedColumns := by
    rw [List.filter_eq_self]
    intro c hc
    have : (c, a) ∉ gatedColumns := fun hmem => fixed_not_gated c hc (c, a) hmem rfl
    simp [this]
  rw [hfix, List.filter_map, List.filter_filter]
  congr 2
  apply List.filter_congr
  intro p hp
  rw [isKeyPresent_removeKey]
  have hiff : (p.1, a) ∈ gatedColumns ↔ p.2 = a := by
    constructor
    · intro hmem
      exact (gated_key_unique (p.1, a) hmem p hp rfl).symm
    · intro h
      rw [← h]
      exact hp
  by_cases hpa : p.2 = a
  · have : (p.1, a) ∈ gatedColumns := hiff.mpr hpa
    simp [hpa, this]
  · have : (p.1, a) ∉ gatedColumns := fun hmem => hpa (hiff.mp hmem)
    simp [hpa, this, Bool.and_comm]

/-- Claim C4. For every header the column header starts with the nine columns chr, start, end,
id, size, vac, vaf, singleton, missingrate at positions 0 to 8, whichever optional
annotations are declared; the header row is that column header. -/
theorem cHeader_starts_with_fixed (hdr : Header) :
    (cHeader hdr).take 9 =
      ["chr", "start", "end", "id", "size", "vac", "vaf", "singleton", "missingrate"] ∧
    (∀ i, i < 9 → (writeHeader hdr)[i]? = fixedColumns[i]?) ∧
    9 ≤ (cHeader hdr).length := by
  have h := cHeader_eq hdr
  have hlen : fixedColumns.length = 9 := rfl
  refine ⟨?_, ?_, ?_⟩
  · rw [h, List.take_append_of_le_length (by rw [hlen])]
    rfl
  · intro i hi
    unfold writeHeader
    rw [h, List.getElem?_append_left (by rw [hlen]; exact hi)]
  · rw [h, List.length_append, hlen]
    exact Nat.le_add_right _ _

/-- Claim C5 as stated fails: with GQ and FIC declared the column fic stands at position 9,
in front of the pair refgq, altgq, so the optional columns are not in the listed order. -/
theorem cHeader_order_counterexample :
    cHeader { ids := ["GQ", "FIC"], formatType := fun _ => 1, samples := [] } =
      ["chr", "start", "end", "id", "size", "vac", "vaf", "singleton", "missingrate",
       "fic", "refgq", "altgq"] ∧
    ¬ ((cHeader { ids := ["GQ", "FIC"], formatType := fun _ => 1, samples := [] }).drop 9).Sublist
        specOptionalOrder := by
  decide

/-- Claim C5, amended. For every header the optional columns that are present follow the nine
fixed columns in this relative order: svtype, precise, ci, then fic, rsq, hwepval, then the
pair refgq, altgq, then the pair rdratio, medianrc, then the pair refratio, altratio. -/
theorem cHeader_optional_order (hdr : Header) :
    (cHeader hdr).drop 9 =
      (gatedColumns.filter (fun c => _isKeyPresent hdr c.2)).map (fun c => c.1) ∧
    ((cHeader hdr).drop 9).Sublist
      ["svtype", "precise", "ci", "fic", "rsq", "hwepval", "refgq", "altgq", "rdratio",
       "medianrc", "refratio", "altratio"] := by
  have h := cHeader_eq hdr
  have hlen : fixedColumns.length = 9 := rfl
  have hdrop : (cHeader hdr).drop 9 =
      (gatedColumns.filter (fun c => _isKeyPresent hdr c.2)).map (fun c => c.1) := by
    rw [h, ← hlen, List.drop_left]
  refine ⟨hdrop, ?_⟩
  rw [hdrop]
  exact (List.filter_sublist gatedColumns).map (fun c => c.1)

/-- Claim C6. For every header an optional column is in the column header exactly when its
gating key is declared; removing a key `a` from the header removes exactly the columns gated
on `a` and keeps the other columns in their order; and the number of columns is 9 plus the
number of optional columns whose key is declared. -/
theorem cHeader_gating (hdr : Header) (a : String) :
    (∀ p ∈ gatedColumns, (p.1 ∈ cHeader hdr ↔ _isKeyPresent hdr p.2 = true)) ∧
    cHeader (removeKey hdr a) =
      (cHeader hdr).filter (fun c => !decide ((c, a) ∈ gatedColumns)) ∧
    (cHeader hdr).length = 9 + gatedColumns.countP (fun c => _isKeyPresent hdr c.2) := by
  refine ⟨fun p hp => gated_mem_cHeader hdr p hp, cHeader_removeKey hdr a, ?_⟩
  rw [cHeader_eq, List.length_append, List.length_map, List.countP_eq_length_filter]
  rfl

/-! ## Sample loop -/

/-- A successful buffer read returns the cell of the buffer. -/
theorem readAt_eq_some {β : Type} (buf : Option (List β)) (i : Nat) (x : β)
    (h : readAt buf i = some x) : (buf.getD [])[i]? = some x := by
  cases buf with
  | none => simp [readAt] at h
  | some l => simpa [readAt] using h

/-- A successful `++ac[a]` has `a` in the array and raises the counter of `a` only. -/
theorem incAc_spec (st st' : LoopState) (a : Int) (h : incAc st a = some st') :
    (a = 0 ∨ a = 1) ∧
    st' = { st with ac0 := st.ac0 + (if a = 0 then 1 else 0),
                    ac1 := st.ac1 + (if a = 1 then 1 else 0) } := by
  unfold incAc at h
  by_cases h0 : a = 0
  · subst h0
    simp at h
    subst h
    simp
  · by_cases h1 : a = 1
    · subst h1
      simp at h
      subst h
      simp
    · simp [h0, h1] at h

/-- The non-carrier branch leaves the counters and the singleton candidate as they are. -/
theorem nonCarrier_counters (hdr : Header) (b : Buffers) (precise : Bool) (st st' : LoopState)
    (i : Nat) (h : nonCarrier hdr b precise st i = some st') :
    st'.ac0 = st.ac0 ∧ st'.ac1 = st.ac1 ∧ st'.uncalled = st.uncalled ∧
    st'.rareCarrier = st.rareCarrier := by
  unfold nonCarrier at h
  simp only [Option.bind_eq_some] at h
  obtain ⟨gq, -, st1, h1, h2⟩ := h
  have e1 : st1.ac0 = st.ac0 ∧ st1.ac1 = st.ac1 ∧ st1.uncalled = st.uncalled ∧
      st1.rareCarrier = st.rareCarrier := by
    split at h1
    · simp only [Option.bind_eq_some, Option.map_eq_some'] at h1
      obtain ⟨c, -, x, -, rfl⟩ := h1
      simp
    · cases h1
      simp
  split at h2
  · simp only [Option.map_eq_some'] at h2
    obtain ⟨x, -, rfl⟩ := h2
    simpa using e1
  · cases h2
    exact e1

/-- The heterozygous branch leaves the counters as they are and records the sample as the
singleton candidate exactly when the alt count is 1. -/
theorem hetCarrier_counters (hdr : Header) (b : Buffers) (precise : Bool) (st st' : LoopState)
    (i : Nat) (h : hetCarrier hdr b precise st i = some st') :
    st'.ac0 = st.ac0 ∧ st'.ac1 = st.ac1 ∧ st'.uncalled = st.uncalled ∧
    (st.ac1 = 1 → hdr.samples[i]? = some st'.rareCarrier) ∧
    (st.ac1 ≠ 1 → st'.rareCarrier = st.rareCarrier) := by
  unfold hetCarrier at h
  simp only [Option.bind_eq_some] at h
  obtain ⟨st0, h0, gq, -, st1, h1, h2⟩ := h
  have e0 : st0.ac0 = st.ac0 ∧ st0.ac1 = st.ac1 ∧ st0.uncalled = st.uncalled ∧
      (st.ac1 = 1 → hdr.samples[i]? = some st0.rareCarrier) ∧
      (st.ac1 ≠ 1 → st0.rareCarrier = st.rareCarrier) := by
    split at h0
    · rename_i hc
      simp only [Option.map_eq_some'] at h0
      obtain ⟨s, hs, rfl⟩ := h0
      simp [hs, hc]
    · rename_i hc
      cases h0
      simp [hc]
  have e1 : st1.ac0 = st0.ac0 ∧ st1.ac1 = st0.ac1 ∧ st1.uncalled = st0.uncalled ∧
      st1.rareCarrier = st0.rareCarrier := by
    split at h1
    · simp only [Option.map_eq_some'] at h1
      obtain ⟨x, -, rfl⟩ := h1
      simp
    · cases h1
      simp
  have e2 : st'.ac0 = st1.ac0 ∧ st'.ac1 = st1.ac1 ∧ st'.uncalled = st1.uncalled ∧
      st'.rareCarrier = st1.rareCarrier := by
    split at h2
    · simp only [Option.map_eq_some'] at h2
      obtain ⟨x, -, rfl⟩ := h2
      simp
    · cases h2
      simp
  obtain ⟨a0, a1, a2, a3, a4⟩ := e0
  obtain ⟨b0, b1, b2, b3⟩ := e1
  obtain ⟨c0, c1, c2, c3⟩ := e2
  refine ⟨by rw [c0, b0, a0], by rw [c1, b1, a1], by rw [c2, b2, a2], ?_, ?_⟩
  · intro hh
    rw [c3, b3]
    exact a3 hh
  · intro hh
    rw [c3, b3]
    exact a4 hh

/-- What one iteration of the sample loop does to the counters and to the singleton
candidate, in terms of the decoded pair of calls of the sample. -/
theorem sampleStep_spec (hdr : Header) (b : Buffers) (precise : Bool) (st st' : LoopState)
    (i : Nat) (h : sampleStep hdr b precise st i = some st') :
    st'.ac0 = st.ac0 + (alleleCopies 0 (callPair b i) : Int) ∧
    st'.ac1 = st.ac1 + (alleleCopies 1 (callPair b i) : Int) ∧
    st'.uncalled = st.uncalled + (if isCalled (callPair b i) then 0 else 1) ∧
    ((alleleCopies 0 (callPair b i) : Int) + (alleleCopies 1 (callPair b i) : Int) +
      2 * (if isCalled (callPair b i) then 0 else 1) = 2) ∧
    (alleleCopies 1 (callPair b i) = 1 → st.ac1 = 0 → hdr.samples[i]? = some st'.rareCarrier) ∧
    (¬ (alleleCopies 1 (callPair b i) = 1 ∧ st.ac1 = 0) → st'.rareCarrier = st.rareCarrier) ∧
    (isCalled (callPair b i) = false → st' = { st with uncalled := st.uncalled + 1 }) := by
  unfold sampleStep at h
  simp only [Option.bind_eq_some] at h
  obtain ⟨g0, hg0, h⟩ := h
  have hp1 : (callPair b i).1 = bcf_gt_allele g0 := by
    simp [callPair, readAt_eq_some _ _ _ hg0]
  by_cases hc0 : bcf_gt_allele g0 = -1
  · have hcalled : isCalled (callPair b i) = false := by simp [isCalled, hp1, hc0]
    simp only [hc0, ne_eq, not_true_eq_false, if_false] at h
    cases h
    simp [alleleCopies, hcalled]
  · simp only [ne_eq, hc0, not_false_eq_true, if_true, Option.bind_eq_some] at h
    obtain ⟨g1, hg1, h⟩ := h
    have hp2 : (callPair b i).2 = bcf_gt_allele g1 := by
      simp [callPair, readAt_eq_some _ _ _ hg1]
    by_cases hc1 : bcf_gt_allele g1 = -1
    · have hcalled : isCalled (callPair b i) = false := by simp [isCalled, hp2, hc1]
      simp only [hc1, not_true_eq_false, if_false] at h
      cases h
      simp [alleleCopies, hcalled]
    · have hcalled : isCalled (callPair b i) = true := by
        simp [isCalled, hp1, hp2, hc0, hc1]
      simp only [hc1, not_false_eq_true, if_true, Option.bind_eq_some] at h
      obtain ⟨s1, hs1, s2, hs2, h⟩ := h
      obtain ⟨ha0, rfl⟩ := incAc_spec _ _ _ hs1
      obtain ⟨ha1, rfl⟩ := incAc_spec _ _ _ hs2
      simp only [alleleCopies, hcalled, if_true, hp1, hp2]
      rcases ha0 with ha0 | ha0 <;> rcases ha1 with ha1 | ha1
      · rw [ha0, ha1] at h ⊢
        simp only [add_zero, if_true] at h
        obtain ⟨e0, e1, e2, e3⟩ := nonCarrier_counters _ _ _ _ _ _ h
        simp at e0 e1 e2 e3
        simp [e0, e1, e2, e3]
        omega
      · rw [ha0, ha1] at h ⊢
        simp at h
        obtain ⟨e0, e1, e2, e3, e4⟩ := hetCarrier_counters _ _ _ _ _ _ h
        simp at e0 e1 e2 e3 e4
        simp [e0, e1, e2]
        refine ⟨?_, ?_⟩
        · intro hz
          exact e3 hz
        · intro hz
          exact e4 hz
      · rw [ha0, ha1] at h ⊢
        simp at h
        obtain ⟨e0, e1, e2, e3, e4⟩ := hetCarrier_counters _ _ _ _ _ _ h
        simp at e0 e1 e2 e3 e4
        simp [e0, e1, e2]
        refine ⟨?_, ?_⟩
        · intro hz
          exact e3 hz
        · intro hz
          exact e4 hz
      · rw [ha0, ha1] at h ⊢
        simp at h
        subst h
        simp
        omega

/-- The loop over `n + 1` samples is the loop over `n` samples followed by the iteration of
sample `n`. -/
theorem sampleLoopFrom_succ (hdr : Header) (b : Buffers) (precise : Bool) (st : LoopState)
    (n : Nat) :
    sampleLoopFrom hdr b precise st (n + 1) =
      (sampleLoopFrom hdr b precise st n).bind (fun s => sampleStep hdr b precise s n) := by
  simp [sampleLoopFrom, List.range_succ, List.foldlM_append]

/-- The allele count over `n + 1` samples. -/
theorem countAllele_succ (a : Int) (b : Buffers) (n : Nat) :
    countAllele a b (n + 1) = countAllele a b n + alleleCopies a (callPair b n) := by
  simp [countAllele, List.range_succ]

/-- The uncalled count over `n + 1` samples. -/
theorem countUncalled_succ (b : Buffers) (n : Nat) :
    countUncalled b (n + 1) =
      countUncalled b n + (if isCalled (callPair b n) then 0 else 1) := by
  simp [countUncalled, List.range_succ]

/-- The carriers among `n + 1` samples. -/
theorem carriers_succ (b : Buffers) (n : Nat) :
    carriers b (n + 1) =
      carriers b n ++ (if 0 < alleleCopies 1 (callPair b n) then [n] else []) := by
  simp only [carriers, List.range_succ, List.filter_append]
  congr 1
  by_cases h : 0 < alleleCopies 1 (callPair b n)
  · simp [h]
  · simp [h]

/-- The counters after the loop over the first `n` samples, from any start state. -/
theorem sampleLoopFrom_counts (hdr : Header) (b : Buffers) (precise : Bool) (st0 : LoopState)
    (n : Nat) : ∀ st, sampleLoopFrom hdr b precise st0 n = some st →
    st.ac0 = st0.ac0 + (countAllele 0 b n : Int) ∧
    st.ac1 = st0.ac1 + (countAllele 1 b n : Int) ∧
    st.uncalled = st0.uncalled + (countUncalled b n : Int) ∧
    (countAllele 0 b n : Int) + (countAllele 1 b n : Int) + 2 * (countUncalled b n : Int)
      = 2 * (n : Int) := by
  induction n with
  | zero =>
    intro st h
    simp [sampleLoopFrom] at h
    subst h
    simp [countAllele, countUncalled]
  | succ n ih =>
    intro st h
    rw [sampleLoopFrom_succ, Option.bind_eq_some] at h
    obtain ⟨s, hs, hstep⟩ := h
    obtain ⟨i0, i1, i2, i3⟩ := ih s hs
    obtain ⟨e0, e1, e2, e3, -⟩ := sampleStep_spec _ _ _ _ _ _ hstep
    rw [countAllele_succ, countAllele_succ, countUncalled_succ]
    push_cast
    refine ⟨by rw [e0, i0]; ring, by rw [e1, i1]; ring, by rw [e2, i2]; ring, ?_⟩
    generalize (if isCalled (callPair b n) = true then (0 : Int) else 1) = u at e3 ⊢
    generalize (alleleCopies 0 (callPair b n) : Int) = x0 at e3 ⊢
    generalize (alleleCopies 1 (callPair b n) : Int) = x1 at e3 ⊢
    omega

/-- A sample contributes to the count at most what the whole range counts. -/
theorem alleleCopies_le_count (a : Int) (b : Buffers) (n i : Nat) (hi : i < n) :
    alleleCopies a (callPair b i) ≤ countAllele a b n := by
  induction n with
  | zero => omega
  | succ n ih =>
    rw [countAllele_succ]
    by_cases h : i < n
    · have := ih h
      omega
    · have : i = n := by omega
      subst this
      omega

/-- Every carrier contributes an alt allele: the alt count is at least the number of
carriers. -/
theorem carriers_length_le (b : Buffers) (n : Nat) :
    (carriers b n).length ≤ countAllele 1 b n := by
  induction n with
  | zero => simp [carriers, countAllele]
  | succ n ih =>
    rw [carriers_succ, countAllele_succ, List.length_append]
    split
    · simp
      omega
    · simp
      omega

/-- Without a carrier the alt count is 0. -/
theorem count_eq_zero_of_no_carrier (b : Buffers) (n : Nat) (h : carriers b n = []) :
    countAllele 1 b n = 0 := by
  induction n with
  | zero => simp [countAllele]
  | succ n ih =>
    rw [carriers_succ] at h
    rw [countAllele_succ]
    by_cases hc : 0 < alleleCopies 1 (callPair b n)
    · simp [hc] at h
    · simp [hc] at h
      rw [ih h]
      omega

/-- The alt count when sample `i` is the only one with an alt allele. -/
theorem count_of_single_carrier (b : Buffers) (i : Nat) (n : Nat)
    (hother : ∀ j, j < n → j ≠ i → alleleCopies 1 (callPair b j) = 0) :
    countAllele 1 b n = if i < n then alleleCopies 1 (callPair b i) else 0 := by
  induction n with
  | zero => simp [countAllele]
  | succ n ih =>
    rw [countAllele_succ, ih (fun j hj hne => hother j (by omega) hne)]
    by_cases h : i < n
    · have hne : n ≠ i := by omega
      rw [hother n (by omega) hne]
      simp [h, Nat.lt_succ_of_lt h]
    · by_cases h2 : i = n
      · subst h2
        simp
      · rw [hother n (by omega) (fun e => h2 e.symm)]
        have : ¬ i < n + 1 := by omega
        simp [h, this]

/-- When sample `i` is heterozygous and no other sample has an alt allele, the singleton
candidate is the name of sample `i` from iteration `i` on. -/
theorem sampleLoopFrom_rareCarrier (hdr : Header) (b : Buffers) (precise : Bool) (i : Nat)
    (n : Nat) (hhet : alleleCopies 1 (callPair b i) = 1)
    (hother : ∀ j, j < n → j ≠ i → alleleCopies 1 (callPair b j) = 0) :
    ∀ st, sampleLoopFrom hdr b precise {} n = some st → i < n →
      hdr.samples[i]? = some st.rareCarrier := by
  induction n with
  | zero => intro st _ hi; omega
  | succ n ih =>
    intro st h hi
    rw [sampleLoopFrom_succ, Option.bind_eq_some] at h
    obtain ⟨s, hs, hstep⟩ := h
    obtain ⟨-, -, -, -, eset, ekeep, -⟩ := sampleStep_spec _ _ _ _ _ _ hstep
    have hoth : ∀ j, j < n → j ≠ i → alleleCopies 1 (callPair b j) = 0 :=
      fun j hj hne => hother j (by omega) hne
    obtain ⟨-, c1, -, -⟩ := sampleLoopFrom_counts hdr b precise {} n s hs
    by_cases hin : i < n
    · have hn : alleleCopies 1 (callPair b n) = 0 := hother n (by omega) (by omega)
      rw [ekeep (by rw [hn]; simp)]
      exact ih hoth s hs hin
    · have hi' : i = n := by omega
      subst hi'
      have hz : s.ac1 = 0 := by
        rw [c1, count_of_single_carrier b i i hoth]
        simp
      exact eset hhet hz

/-! ## Defined behaviour of the sample loop -/

/-- Whether the genotype-quality read is defined does not depend on the vector appended to. -/
theorem pushGq_defined (hdr : Header) (b : Buffers) (v w : List TPrecision) (i : Nat)
    (h : (pushGq hdr b v i).isSome = true) : ∃ x, pushGq hdr b w i = some x := by
  unfold pushGq at h ⊢
  by_cases hGQ : _isKeyPresent hdr "GQ" = true
  · simp only [hGQ, if_true] at h ⊢
    by_cases hI : _getFormatType hdr "GQ" = BCF_HT_INT
    · simp only [hI, if_true] at h ⊢
      cases hr : readAt b.gqInt i with
      | none => simp [hr] at h
      | some g =>
        simp only [Option.some_bind]
        split
        · exact ⟨_, rfl⟩
        · exact ⟨_, rfl⟩
    · simp only [hI, if_false] at h ⊢
      by_cases hR : _getFormatType hdr "GQ" = BCF_HT_REAL
      · simp only [hR, if_true] at h ⊢
        cases hr : readAt b.gqFloat i with
        | none => simp [hr] at h
        | some g =>
          simp only [Option.some_bind]
          split
          · exact ⟨_, rfl⟩
          · exact ⟨_, rfl⟩
      · simp only [hR, if_false]
        exact ⟨_, rfl⟩
  · simp only [hGQ, if_false]
    exact ⟨_, rfl⟩

/-- The non-carrier branch is defined when the reads of the sample are. -/
theorem nonCarrier_defined (hdr : Header) (b : Buffers) (precise : Bool) (st : LoopState)
    (i : Nat) (h : evidenceReadable hdr b precise i = true) :
    ∃ st', nonCarrier hdr b precise st i = some st' := by
  simp only [evidenceReadable, Bool.and_eq_true, Bool.or_eq_true, Bool.not_eq_true'] at h
  obtain ⟨⟨hgq, hrc⟩, hdv⟩ := h
  obtain ⟨gq, hgq'⟩ := pushGq_defined hdr b [] st.gqRef i hgq
  unfold nonCarrier
  rw [hgq']
  simp only [Option.some_bind]
  by_cases hRC : _isKeyPresent hdr "RC" = true
  · have hr : (rcRatio b i).isSome = true := by
      rcases hrc with hrc | hrc
      · rw [hRC] at hrc
        cases hrc
      · exact hrc
    obtain ⟨x, hx⟩ := Option.isSome_iff_exists.mp hr
    have hx' := hx
    simp only [rcRatio, Option.bind_eq_some] at hx'
    obtain ⟨c, hc, -⟩ := hx'
    simp only [hRC, if_true, hc, hx, Option.some_bind, Option.map_some']
    by_cases hDV : _isKeyPresent hdr "DV" = true
    · rcases hdv with hdv | hdv
      · rw [hDV] at hdv
        cases hdv
      · obtain ⟨y, hy⟩ := Option.isSome_iff_exists.mp hdv
        simp [hDV, hy]
    · simp [hDV]
  · simp only [hRC, Bool.false_eq_true, if_false, Option.some_bind]
    by_cases hDV : _isKeyPresent hdr "DV" = true
    · rcases hdv with hdv | hdv
      · rw [hDV] at hdv
        cases hdv
      · obtain ⟨y, hy⟩ := Option.isSome_iff_exists.mp hdv
        simp [hDV, hy]
    · simp [hDV]

/-- The heterozygous branch is defined when the reads of the sample are. -/
theorem hetCarrier_defined (hdr : Header) (b : Buffers) (precise : Bool) (st : LoopState)
    (i : Nat) (hi : i < bcf_hdr_nsamples hdr) (h : evidenceReadable hdr b precise i = true) :
    ∃ st', hetCarrier hdr b precise st i = some st' := by
  simp only [evidenceReadable, Bool.and_eq_true, Bool.or_eq_true, Bool.not_eq_true'] at h
  obtain ⟨⟨hgq, hrc⟩, hdv⟩ := h
  have hname : hdr.samples[i]? = some (hdr.samples[i]) := List.getElem?_eq_getElem hi
  unfold hetCarrier
  have hfirst : ∃ s0 : LoopState,
      (if st.ac1 = 1 then (hdr.samples[i]?).map fun s => { st with rareCarrier := s }
        else some st) = some s0 := by
    split
    · rw [hname]
      exact ⟨_, rfl⟩
    · exact ⟨_, rfl⟩
  obtain ⟨s0, hs0⟩ := hfirst
  rw [hs0]
  simp only [Option.some_bind]
  obtain ⟨gq, hgq'⟩ := pushGq_defined hdr b [] s0.gqAlt i hgq
  rw [hgq']
  simp only [Option.some_bind]
  by_cases hRC : _isKeyPresent hdr "RC" = true
  · have hr : (rcRatio b i).isSome = true := by
      rcases hrc with hrc | hrc
      · rw [hRC] at hrc
        cases hrc
      · exact hrc
    obtain ⟨x, hx⟩ := Option.isSome_iff_exists.mp hr
    simp only [hRC, if_true, hx, Option.some_bind, Option.map_some']
    by_cases hDV : _isKeyPresent hdr "DV" = true
    · rcases hdv with hdv | hdv
      · rw [hDV] at hdv
        cases hdv
      · obtain ⟨y, hy⟩ := Option.isSome_iff_exists.mp hdv
        simp [hDV, hy]
    · simp [hDV]
  · simp only [hRC, Bool.false_eq_true, if_false, Option.some_bind]
    by_cases hDV : _isKeyPresent hdr "DV" = true
    · rcases hdv with hdv | hdv
      · rw [hDV] at hdv
        cases hdv
      · obtain ⟨y, hy⟩ := Option.isSome_iff_exists.mp hdv
        simp [hDV, hy]
    · simp [hDV]

/-- One iteration is defined from every state when the sample is readable. -/
theorem sampleStep_defined (hdr : Header) (b : Buffers) (precise : Bool) (st : LoopState)
    (i : Nat) (hi : i < bcf_hdr_nsamples hdr) (h : sampleReadable hdr b precise i = true) :
    ∃ st', sampleStep hdr b precise st i = some st' := by
  unfold sampleReadable at h
  unfold sampleStep
  cases hg0 : readAt b.gt (i * 2) with
  | none => simp [hg0] at h
  | some g0 =>
    simp only [hg0, Option.some_bind] at h ⊢
    by_cases hc0 : bcf_gt_allele g0 = -1
    · simp [hc0]
    · simp only [hc0, if_false, ne_eq, not_false_eq_true, if_true] at h ⊢
      cases hg1 : readAt b.gt (i * 2 + 1) with
      | none => simp [hg1] at h
      | some g1 =>
        simp only [hg1, Option.some_bind] at h ⊢
        by_cases hc1 : bcf_gt_allele g1 = -1
        · simp [hc1]
        · simp only [hc1, if_false, not_false_eq_true, if_true, Bool.and_eq_true,
            Bool.or_eq_true, decide_eq_true_eq] at h ⊢
          obtain ⟨⟨ha0, ha1⟩, hev⟩ := h
          rcases ha0 with ha0 | ha0 <;> rcases ha1 with ha1 | ha1
          · have hev' : evidenceReadable hdr b precise i = true := by
              rcases hev with hev | hev
              · rw [ha0, ha1] at hev
                exact absurd hev (by decide)
              · exact hev
            rw [ha0, ha1]
            simp only [incAc, if_true, Option.some_bind, add_zero]
            exact nonCarrier_defined hdr b precise _ i hev'
          · have hev' : evidenceReadable hdr b precise i = true := by
              rcases hev with hev | hev
              · rw [ha0, ha1] at hev
                exact absurd hev (by decide)
              · exact hev
            rw [ha0, ha1]
            simp [incAc]
            exact hetCarrier_defined hdr b precise _ i hi hev'
          · have hev' : evidenceReadable hdr b precise i = true := by
              rcases hev with hev | hev
              · rw [ha0, ha1] at hev
                exact absurd hev (by decide)
              · exact hev
            rw [ha0, ha1]
            simp [incAc]
            exact hetCarrier_defined hdr b precise _ i hi hev'
          · rw [ha0, ha1]
            simp [incAc]

/-- The loop over the first `n` samples is defined when each of them is readable. -/
theorem sampleLoopFrom_defined (hdr : Header) (b : Buffers) (precise : Bool) (st0 : LoopState)
    (n : Nat) (hn : n ≤ bcf_hdr_nsamples hdr)
    (h : ∀ i, i < n → sampleReadable hdr b precise i = true) :
    ∃ st, sampleLoopFrom hdr b precise st0 n = some st := by
  induction n with
  | zero => exact ⟨st0, by simp [sampleLoopFrom]⟩
  | succ n ih =>
    obtain ⟨s, hs⟩ := ih (by omega) (fun i hi => h i (by omega))
    obtain ⟨s', hs'⟩ := sampleStep_defined hdr b precise s n (by omega) (h n (by omega))
    exact ⟨s', by rw [sampleLoopFrom_succ, hs]; exact hs'⟩

/-- The sample loop of a record is defined when the loop is readable. -/
theorem sampleLoop_defined (hdr : Header) (b : Buffers) (precise : Bool)
    (h : loopReadable hdr b precise = true) : ∃ st, sampleLoop hdr b precise = some st := by
  unfold loopReadable at h
  rw [List.all_eq_true] at h
  exact sampleLoopFrom_defined hdr b precise {} _ le_rfl
    (fun i hi => h i (List.mem_range.mpr hi))

/-! ## Row output -/

/-- Every name of a column header is one of the twenty-one column names. -/
theorem cHeader_names (hdr : Header) (name : String) (h : name ∈ cHeader hdr) :
    name ∈ fixedColumns ∨
      ∃ p ∈ gatedColumns, _isKeyPresent hdr p.2 = true ∧ p.1 = name := by
  rw [cHeader_eq, List.mem_append, List.mem_map] at h
  rcases h with h | ⟨p, hp, rfl⟩
  · exact Or.inl h
  · obtain ⟨hpg, hpk⟩ := List.mem_filter.mp hp
    exact Or.inr ⟨p, hpg, hpk, rfl⟩

/-- The dispatch has a branch for every name that a column header can hold. -/
theorem writeColumn_ne_empty (hdr hdr' : Header) (rec : Record) (b : Buffers) (precise : Bool)
    (s : Summary) (name : String) (h : name ∈ cHeader hdr') :
    writeColumn hdr rec b precise s name ≠ some none := by
  rcases cHeader_names hdr' name h with hf | ⟨p, hp, -, rfl⟩
  · simp only [fixedColumns, List.mem_cons, List.mem_singleton, List.not_mem_nil, or_false] at hf
    rcases hf with rfl | rfl | rfl | rfl | rfl | rfl | rfl | rfl | rfl
    all_goals try (simp [writeColumn]; done)
    simp [writeColumn]
    split
    · simp
    · simp
  · simp only [gatedColumns, List.mem_cons, List.mem_singleton, List.not_mem_nil, or_false] at hp
    rcases hp with rfl | rfl | rfl | rfl | rfl | rfl | rfl | rfl | rfl | rfl | rfl | rfl <;>
      simp [writeColumn]

/-- With readable buffers the dispatch prints a value for every name of the column header. -/
theorem writeColumn_defined (hdr : Header) (rec : Record) (b : Buffers) (precise : Bool)
    (s : Summary) (hread : rowReadable hdr b = true) (name : String) (h : name ∈ cHeader hdr) :
    ∃ c, writeColumn hdr rec b precise s name = some (some c) := by
  simp only [rowReadable, Bool.and_eq_true, Bool.or_eq_true, Bool.not_eq_true',
    Option.isSome_iff_exists] at hread
  obtain ⟨⟨⟨⟨⟨r1, r2⟩, r3⟩, r4⟩, r5⟩, r6⟩ := hread
  rcases cHeader_names hdr name h with hf | ⟨p, hp, hk, rfl⟩
  · simp only [fixedColumns, List.mem_cons, List.mem_singleton, List.not_mem_nil, or_false] at hf
    rcases hf with rfl | rfl | rfl | rfl | rfl | rfl | rfl | rfl | rfl
    all_goals try (simp [writeColumn]; done)
    rcases r1 with r1 | ⟨e, he⟩
    · simp [writeColumn, r1]
    · by_cases hE : _isKeyPresent hdr "END" = true
      · simp [writeColumn, hE, he]
      · simp [writeColumn, hE]
  · simp only [gatedColumns, List.mem_cons, List.mem_singleton, List.not_mem_nil, or_false] at hp
    rcases hp with rfl | rfl | rfl | rfl | rfl | rfl | rfl | rfl | rfl | rfl | rfl | rfl
    all_goals try (simp [writeColumn]; done)
    · rcases r2 with r2 | ⟨e, he⟩
      · simp [r2] at hk
      · simp [writeColumn, he]
    · rcases r3 with r3 | ⟨e, he⟩
      · simp [r3] at hk
      · simp [writeColumn, he]
    · rcases r4 with r4 | ⟨e, he⟩
      · simp [r4] at hk
      · simp [writeColumn, he]
    · rcases r5 with r5 | ⟨e, he⟩
      · simp [r5] at hk
      · simp [writeColumn, he]
    · rcases r6 with r6 | ⟨e, he⟩
      · simp [r6] at hk
      · simp [writeColumn, he]

/-- A row over names with a printed value each has one field per name, in the order of the
names, and the field of a name is the value that the dispatch prints for it. -/
theorem writeRow_defined (hdr : Header) (rec : Record) (b : Buffers) (precise : Bool)
    (s : Summary) (names : List String)
    (hall : ∀ name ∈ names, ∃ c, writeColumn hdr rec b precise s name = some (some c)) :
    ∃ row, writeRow hdr rec b precise s names = some row ∧ row.length = names.length ∧
      ∀ (i : Nat) (name : String), names[i]? = some name →
        ∃ c, row[i]? = some (some c) ∧
          writeColumn hdr rec b precise s name = some (some c) := by
  induction names with
  | nil => exact ⟨[], rfl, rfl, by simp⟩
  | cons n ns ih =>
    obtain ⟨row, hrow, hlen, hget⟩ := ih (fun name hn => hall name (List.mem_cons_of_mem _ hn))
    obtain ⟨c, hc⟩ := hall n (List.mem_cons_self _ _)
    refine ⟨some c :: row, by simp [writeRow, hc, hrow], by simp [hlen], ?_⟩
    intro i name hi
    cases i with
    | zero =>
      simp at hi
      subst hi
      exact ⟨c, by simp, hc⟩
    | succ j =>
      simp at hi
      obtain ⟨c', h1, h2⟩ := hget j name hi
      exact ⟨c', by simpa using h1, h2⟩

/-- A row that is written has one field per name, and each field is what the dispatch prints
for the name at its position. -/
theorem writeRow_some (hdr : Header) (rec : Record) (b : Buffers) (precise : Bool)
    (s : Summary) (names : List String) :
    ∀ row, writeRow hdr rec b precise s names = some row →
      row.length = names.length ∧
      ∀ (i : Nat) (name : String), names[i]? = some name →
        ∃ f, row[i]? = some f ∧ writeColumn hdr rec b precise s name = some f := by
  induction names with
  | nil =>
    intro row h
    simp [writeRow] at h
    subst h
    simp
  | cons n ns ih =>
    intro row h
    simp only [writeRow, Option.bind_eq_some, Option.map_eq_some'] at h
    obtain ⟨f, hf, xs, hxs, rfl⟩ := h
    obtain ⟨hlen, hget⟩ := ih xs hxs
    refine ⟨by simp [hlen], ?_⟩
    intro i name hi
    cases i with
    | zero =>
      simp at hi
      subst hi
      exact ⟨f, by simp, hf⟩
    | succ j =>
      simp at hi
      obtain ⟨f', h1, h2⟩ := hget j name hi
      exact ⟨f', by simpa using h1, h2⟩

/-- The first nine names of the column header are the fixed columns. -/
theorem cHeader_fixed_get (hdr : Header) (i : Nat) (hi : i < 9) :
    (cHeader hdr)[i]? = fixedColumns[i]? := by
  have hlen : fixedColumns.length = 9 := rfl
  rw [cHeader_eq, List.getElem?_append_left (by rw [hlen]; exact hi)]

/-- The processing of a readable record is defined, and its row is the row written from the
loop state and the summary of the record. -/
theorem processRecord_defined (hdr : Header) (b0 : Buffers) (rec : Record)
    (hread : recordReadable hdr b0 rec = true) :
    ∃ st s row, sampleLoop hdr (extractFields hdr rec b0).1 (extractFields hdr rec b0).2 = some st ∧
      summarise hdr (extractFields hdr rec b0).1 rec st = some s ∧
      writeRow hdr rec (extractFields hdr rec b0).1 (extractFields hdr rec b0).2 s (cHeader hdr)
        = some row ∧
      processRecord hdr b0 rec = some ((extractFields hdr rec b0).1, row) := by
  simp only [recordReadable, Bool.and_eq_true] at hread
  obtain ⟨⟨hloop, hlen⟩, hrow⟩ := hread
  obtain ⟨st, hst⟩ := sampleLoop_defined _ _ _ hloop
  obtain ⟨len, hlen'⟩ := Option.isSome_iff_exists.mp hlen
  have hs : ∃ s, summarise hdr (extractFields hdr rec b0).1 rec st = some s := by
    simp only [summarise, hlen', Option.map_some']
    exact ⟨_, rfl⟩
  obtain ⟨s, hs⟩ := hs
  obtain ⟨row, hr, -, -⟩ := writeRow_defined hdr rec (extractFields hdr rec b0).1
    (extractFields hdr rec b0).2 s (cHeader hdr)
    (fun name h => writeColumn_defined hdr rec _ _ s hrow name h)
  refine ⟨st, s, row, hst, hs, hr, ?_⟩
  simp [processRecord, hst, hs, hr]

/-- The field of a written row at a position of the column header is what the dispatch
prints for the name at that position. -/
theorem writeRow_get (hdr : Header) (rec : Record) (b : Buffers) (precise : Bool)
    (s : Summary) (names : List String) (row : List (Option Cell))
    (h : writeRow hdr rec b precise s names = some row) (i : Nat) (name : String)
    (hn : names[i]? = some name) (f : Option Cell)
    (hf : writeColumn hdr rec b precise s name = some f) : row[i]? = some f := by
  obtain ⟨-, hget⟩ := writeRow_some hdr rec b precise s names row h
  obtain ⟨f', h1, h2⟩ := hget i name hn
  rw [h1, ← Option.some.inj (h2.symm.trans hf)]

/-- The singleton column in terms of the calls of the record, for a defined sample loop. -/
theorem singleton_writeColumn (hdr : Header) (b : Buffers) (precise : Bool) (st : LoopState)
    (rec : Record) (s : Summary)
    (hloop : sampleLoop hdr b precise = some st) (hsum : summarise hdr b rec st = some s) :
    (∀ i, i < bcf_hdr_nsamples hdr → alleleCopies 1 (callPair b i) = 1 →
      (∀ j, j < bcf_hdr_nsamples hdr → j ≠ i → alleleCopies 1 (callPair b j) = 0) →
      ∃ name, hdr.samples[i]? = some name ∧
        writeColumn hdr rec b precise s "singleton" = some (some (.text name))) ∧
    ((countAllele 1 b (bcf_hdr_nsamples hdr) : Int) ≠ 1 →
      writeColumn hdr rec b precise s "singleton" = some (some (.text "NA"))) := by
  obtain ⟨-, c1, -, -⟩ := sampleLoopFrom_counts hdr b precise {} _ st hloop
  simp only [zero_add] at c1
  simp only [summarise, Option.map_eq_some'] at hsum
  obtain ⟨len, -, rfl⟩ := hsum
  have hcol : ∀ t, (if st.ac1 ≠ 1 then "NA" else st.rareCarrier) = t →
      writeColumn hdr rec b precise
        { rareCarrier := if st.ac1 ≠ 1 then "NA" else st.rareCarrier, ac1 := st.ac1,
          af := fdiv st.ac1 (st.ac0 + st.ac1), svlen := len,
          missingRate := fdiv st.uncalled (bcf_hdr_nsamples hdr),
          refratio := medianOf st.ratioRef, altratio := medianOf st.ratioAlt,
          refgq := medianOf st.gqRef, altgq := medianOf st.gqAlt,
          rdRatio := divPrecision (medianOf st.rcAltRatio) (medianOf st.rcRefRatio),
          rcMed := medianOf st.rcRef } "singleton" = some (some (.text t)) := by
    intro t ht
    simp [writeColumn, ht]
  refine ⟨?_, ?_⟩
  · intro i hi hhet hother
    have hname := sampleLoopFrom_rareCarrier hdr b precise i _ hhet hother st hloop hi
    refine ⟨st.rareCarrier, hname, hcol _ ?_⟩
    have hcount := count_of_single_carrier b i _ hother
    rw [if_pos hi, hhet] at hcount
    have : st.ac1 = 1 := by rw [c1, hcount]; rfl
    simp [this]
  · intro hne
    rw [← c1] at hne
    exact hcol _ (by simp [hne])

/-- After field extraction the calls of the first samples are the calls that the genotype
cells of the record encode, when the record carries two cells per sample. -/
theorem callPair_extract (hdr : Header) (rec : Record) (b0 : Buffers) (gt : List Int)
    (hgt : rec.formatInt32 "GT" = some gt) (n i : Nat) (hlen : 2 * n ≤ gt.length)
    (hi : i < n) :
    callPair (extractFields hdr rec b0).1 i = callPair (genotypeBuffers gt) i := by
  have hbuf : (extractFields hdr rec b0).1.gt = some (gt ++ (b0.gt.getD []).drop gt.length) := by
    simp [extractFields, hgt, fillBuffer]
  have h0 : i * 2 < gt.length := by omega
  have h1 : i * 2 + 1 < gt.length := by omega
  simp only [callPair, hbuf, genotypeBuffers, Option.getD_some,
    List.getElem?_append_left h0, List.getElem?_append_left h1]

/-- The allele counts after field extraction are those of the genotype cells of the
record. -/
theorem countAllele_extract (hdr : Header) (rec : Record) (b0 : Buffers) (gt : List Int)
    (hgt : rec.formatInt32 "GT" = some gt) (a : Int) (n : Nat) (hlen : 2 * n ≤ gt.length) :
    countAllele a (extractFields hdr rec b0).1 n = countAllele a (genotypeBuffers gt) n := by
  unfold countAllele
  congr 1
  apply List.map_congr_left
  intro i hi
  rw [callPair_extract hdr rec b0 gt hgt n i hlen (List.mem_range.mp hi)]

/-- The carriers after field extraction are those of the genotype cells of the record. -/
theorem carriers_extract (hdr : Header) (rec : Record) (b0 : Buffers) (gt : List Int)
    (hgt : rec.formatInt32 "GT" = some gt) (n : Nat) (hlen : 2 * n ≤ gt.length) :
    carriers (extractFields hdr rec b0).1 n = carriers (genotypeBuffers gt) n := by
  unfold carriers
  apply List.filter_congr
  intro i hi
  rw [callPair_extract hdr rec b0 gt hgt n i hlen (List.mem_range.mp hi)]

/-- Claim C7 fails on the code. With SVTYPE declared, a first record that carries no SVTYPE
leaves the buffer `svt` NULL: the sample loop and the size computation are defined and the
nine fixed fields are written, but the dispatch then prints through the NULL pointer for the
column svtype, so the row does not get its ten fields, and nothing is defined for the rows
after it. In the same way, with END declared, a first record without END reaches `*svend`
on a NULL buffer in the column end. -/
theorem row_lost_without_declared_value :
    cHeader (headerOf ["SVTYPE"] ["s1"]) =
      ["chr", "start", "end", "id", "size", "vac", "vaf", "singleton", "missingrate",
       "svtype"] ∧
    loopReadable (headerOf ["SVTYPE"] ["s1"])
      (extractFields (headerOf ["SVTYPE"] ["s1"]) (sizeRecord 999 none none none) {}).1
      (extractFields (headerOf ["SVTYPE"] ["s1"]) (sizeRecord 999 none none none) {}).2
      = true ∧
    svlen (extractFields (headerOf ["SVTYPE"] ["s1"]) (sizeRecord 999 none none none) {}).1
      (sizeRecord 999 none none none) = some 1 ∧
    (extractFields (headerOf ["SVTYPE"] ["s1"]) (sizeRecord 999 none none none) {}).1.svt
      = none ∧
    ((sampleLoop (headerOf ["SVTYPE"] ["s1"])
        (extractFields (headerOf ["SVTYPE"] ["s1"]) (sizeRecord 999 none none none) {}).1
        (extractFields (headerOf ["SVTYPE"] ["s1"]) (sizeRecord 999 none none none) {}).2).bind
      fun st =>
        (summarise (headerOf ["SVTYPE"] ["s1"])
          (extractFields (headerOf ["SVTYPE"] ["s1"]) (sizeRecord 999 none none none) {}).1
          (sizeRecord 999 none none none) st).bind
        fun s =>
          (writeRow (headerOf ["SVTYPE"] ["s1"]) (sizeRecord 999 none none none)
            (extractFields (headerOf ["SVTYPE"] ["s1"]) (sizeRecord 999 none none none) {}).1
            (extractFields (headerOf ["SVTYPE"] ["s1"]) (sizeRecord 999 none none none) {}).2
            s fixedColumns).map
          fun row => (row.length,
            writeColumn (headerOf ["SVTYPE"] ["s1"]) (sizeRecord 999 none none none)
              (extractFields (headerOf ["SVTYPE"] ["s1"]) (sizeRecord 999 none none none) {}).1
              (extractFields (headerOf ["SVTYPE"] ["s1"]) (sizeRecord 999 none none none) {}).2
              s "svtype")) = some (9, none) ∧
    (processRecord (headerOf ["SVTYPE"] ["s1"]) {} (sizeRecord 999 none none none)).isNone
      = true ∧
    run (headerOf ["SVTYPE"] ["s1"])
      [sizeRecord 999 none none none, sizeRecord 4999 none (some "DEL") none] = none ∧
    (run (headerOf ["SVTYPE"] ["s1"]) [sizeRecord 4999 none (some "DEL") none]).map
      (fun rows => rows.map List.length) = some [10] ∧
    (extractFields (headerOf ["END"] ["s1"]) (sizeRecord 999 none none none) {}).1.svend
      = none ∧
    (processRecord (headerOf ["END"] ["s1"]) {} (sizeRecord 999 none none none)).isNone
      = true ∧
    (run (headerOf ["END"] ["s1"]) [sizeRecord 999 (some 1050) none none]).map
      (fun rows => rows.map List.length) = some [9] := by
  decide

/-- Claim C8. For every record on which the sample loop has defined behaviour (in
particular, each fully called sample has both allele indices in 0, 1) the loop completes,
and: a sample with a no-call in either allele raises the uncalled counter and nothing
else; the final ref count is the number of 0 alleles and the final alt count the number of 1
alleles over the fully called samples; the uncalled counter is the number of samples with a
no-call; and ref count + alt count + 2 * uncalled is twice the number of samples. For the
calls 0/0, 0/0, 0/1, 1/1 the counts are 5 and 3, and they stay 5 and 3 when a fifth, uncalled
sample is added. -/
theorem sampleLoop_allele_counts (hdr : Header) (b : Buffers) (precise : Bool)
    (hread : loopReadable hdr b precise = true) :
    (∀ s s' i, sampleStep hdr b precise s i = some s' → isCalled (callPair b i) = false →
      s' = { s with uncalled := s.uncalled + 1 }) ∧
    (∃ st, sampleLoop hdr b precise = some st ∧
      st.ac0 = (countAllele 0 b (bcf_hdr_nsamples hdr) : Int) ∧
      st.ac1 = (countAllele 1 b (bcf_hdr_nsamples hdr) : Int) ∧
      st.uncalled = (countUncalled b (bcf_hdr_nsamples hdr) : Int) ∧
      st.ac0 + st.ac1 + 2 * st.uncalled = 2 * (bcf_hdr_nsamples hdr : Int)) ∧
    (sampleLoop (plainHeader ["s1", "s2", "s3", "s4"])
        (genotypeBuffers [2, 2, 2, 2, 2, 4, 4, 4]) false).map
      (fun s => (s.ac0, s.ac1, s.uncalled)) = some (5, 3, 0) ∧
    (sampleLoop (plainHeader ["s1", "s2", "s3", "s4", "s5"])
        (genotypeBuffers [2, 2, 2, 2, 2, 4, 4, 4, 0, 0]) false).map
      (fun s => (s.ac0, s.ac1, s.uncalled)) = some (5, 3, 1) := by
  obtain ⟨st, h⟩ := sampleLoop_defined hdr b precise hread
  obtain ⟨c0, c1, c2, c3⟩ := sampleLoopFrom_counts hdr b precise {} _ st h
  simp only [zero_add] at c0 c1 c2
  refine ⟨?_, ⟨st, h, c0, c1, c2, ?_⟩, by decide, by decide⟩
  · intro s s' i hstep hunc
    exact (sampleStep_spec _ _ _ _ _ _ hstep).2.2.2.2.2.2 hunc
  · rw [c0, c1, c2]
    exact c3

/-- Claim C8 at the calls 0/0, 0/0, 0/1, 1/1, ./. of five samples. -/
theorem sampleLoop_allele_counts_witness :
    loopReadable (plainHeader ["s1", "s2", "s3", "s4", "s5"])
      (genotypeBuffers [2, 2, 2, 2, 2, 4, 4, 4, 0, 0]) false = true ∧
    ∃ st, sampleLoop (plainHeader ["s1", "s2", "s3", "s4", "s5"])
        (genotypeBuffers [2, 2, 2, 2, 2, 4, 4, 4, 0, 0]) false = some st ∧
      st.ac0 + st.ac1 + 2 * st.uncalled = 2 * (5 : Int) :=
  ⟨by decide,
   (sampleLoop_allele_counts (plainHeader ["s1", "s2", "s3", "s4", "s5"])
      (genotypeBuffers [2, 2, 2, 2, 2, 4, 4, 4, 0, 0]) false (by decide)).2.1.imp
      (fun _ h => ⟨h.1, h.2.2.2.2⟩)⟩

/-- Claim C9. For every record whose processing is defined (alleles in 0, 1) and that
carries the genotype cells `gt`, two per sample, the singleton column, field 7 of the row,
is the name of sample `i` when the cells of `i` encode a heterozygous call and no other
sample has an alt allele, wherever `i` stands in the sample order; it is "NA" when two or
more samples carry the alt allele, when a sample is homozygous-alt, and when no sample
carries the alt allele. With the samples a, b, c, d the row shows d for the calls 0/0, 0/0,
0/0, 0/1, b for 0/0, 1/0, ./., 0/0, and NA for 0/1, 0/0, 0/1, 0/0, for 0/0, 1/1, 0/0, 0/0
and for 0/0, 0/0, ./., 0/0. -/
theorem singleton_column (hdr : Header) (b0 : Buffers) (rec : Record) (gt : List Int)
    (hgt : rec.formatInt32 "GT" = some gt)
    (hlen : 2 * bcf_hdr_nsamples hdr ≤ gt.length)
    (hread : recordReadable hdr b0 rec = true) :
    (writeHeader hdr)[7]? = some "singleton" ∧
    (∃ out, processRecord hdr b0 rec = some out ∧
      (∀ i, i < bcf_hdr_nsamples hdr → alleleCopies 1 (callPair (genotypeBuffers gt) i) = 1 →
        (∀ j, j < bcf_hdr_nsamples hdr → j ≠ i →
          alleleCopies 1 (callPair (genotypeBuffers gt) j) = 0) →
        ∃ name, hdr.samples[i]? = some name ∧ out.2[7]? = some (some (.text name))) ∧
      (2 ≤ (carriers (genotypeBuffers gt) (bcf_hdr_nsamples hdr)).length →
        out.2[7]? = some (some (.text "NA"))) ∧
      ((∃ i, i < bcf_hdr_nsamples hdr ∧ alleleCopies 1 (callPair (genotypeBuffers gt) i) = 2) →
        out.2[7]? = some (some (.text "NA"))) ∧
      (carriers (genotypeBuffers gt) (bcf_hdr_nsamples hdr) = [] →
        out.2[7]? = some (some (.text "NA")))) ∧
    rowField (run (plainHeader ["a", "b", "c", "d"])
      [formatRecord [2, 2, 2, 2, 2, 2, 2, 4] [] []]) 0 7 = some (some (.text "d")) ∧
    rowField (run (plainHeader ["a", "b", "c", "d"])
      [formatRecord [2, 2, 4, 2, 0, 0, 2, 2] [] []]) 0 7 = some (some (.text "b")) ∧
    rowField (run (plainHeader ["a", "b", "c", "d"])
      [formatRecord [2, 4, 2, 2, 2, 4, 2, 2] [] []]) 0 7 = some (some (.text "NA")) ∧
    rowField (run (plainHeader ["a", "b", "c", "d"])
      [formatRecord [2, 2, 4, 4, 2, 2, 2, 2] [] []]) 0 7 = some (some (.text "NA")) ∧
    rowField (run (plainHeader ["a", "b", "c", "d"])
      [formatRecord [2, 2, 2, 2, 0, 0, 2, 2] [] []]) 0 7 = some (some (.text "NA")) := by
  have hname : (cHeader hdr)[7]? = some "singleton" := cHeader_fixed_get hdr 7 (by decide)
  refine ⟨hname, ?_, by decide, by decide, by decide, by decide, by decide⟩
  obtain ⟨st, s, row, hloop, hsum, hrow, hproc⟩ := processRecord_defined hdr b0 rec hread
  obtain ⟨hone, hna⟩ := singleton_writeColumn hdr _ _ st rec s hloop hsum
  have hcp : ∀ i, i < bcf_hdr_nsamples hdr →
      callPair (extractFields hdr rec b0).1 i = callPair (genotypeBuffers gt) i :=
    fun i hi => callPair_extract hdr rec b0 gt hgt _ i hlen hi
  have hcount : countAllele 1 (extractFields hdr rec b0).1 (bcf_hdr_nsamples hdr) =
      countAllele 1 (genotypeBuffers gt) (bcf_hdr_nsamples hdr) :=
    countAllele_extract hdr rec b0 gt hgt 1 _ hlen
  rw [hcount] at hna
  have hfield : ∀ f, writeColumn hdr rec (extractFields hdr rec b0).1
      (extractFields hdr rec b0).2 s "singleton" = some f → row[7]? = some f :=
    fun f hf => writeRow_get hdr rec _ _ s _ row hrow 7 "singleton" hname f hf
  refine ⟨_, hproc, ?_, ?_, ?_, ?_⟩
  · intro i hi hhet hother
    obtain ⟨name, h1, h2⟩ := hone i hi (by rw [hcp i hi]; exact hhet)
      (fun j hj hne => by rw [hcp j hj]; exact hother j hj hne)
    exact ⟨name, h1, hfield _ h2⟩
  · intro h2
    have := carriers_length_le (genotypeBuffers gt) (bcf_hdr_nsamples hdr)
    exact hfield _ (hna (by omega))
  · rintro ⟨i, hi, hhom⟩
    have := alleleCopies_le_count 1 (genotypeBuffers gt) _ i hi
    exact hfield _ (hna (by omega))
  · intro hnone
    have := count_eq_zero_of_no_carrier (genotypeBuffers gt) _ hnone
    exact hfield _ (hna (by omega))

/-- Claim C9 at the samples a, b, c, d with the calls 0/0, 0/0, 0/0, 0/1: the singleton
column names the last sample, d. -/
theorem singleton_column_witness :
    ∃ out, processRecord (plainHeader ["a", "b", "c", "d"]) {}
        (formatRecord [2, 2, 2, 2, 2, 2, 2, 4] [] []) = some out ∧
      out.2[7]? = some (some (.text "d")) := by
  obtain ⟨out, h0, h1, -⟩ := (singleton_column (plainHeader ["a", "b", "c", "d"]) {}
    (formatRecord [2, 2, 2, 2, 2, 2, 2, 4] [] []) [2, 2, 2, 2, 2, 2, 2, 4]
    (by rfl) (by decide) (by decide)).2.1
  obtain ⟨name, hn, hcell⟩ := h1 3 (by decide) (by decide) (by decide)
  have hd : (plainHeader ["a", "b", "c", "d"]).samples[3]? = some "d" := rfl
  have hname : name = "d" := Option.some.inj (hn.symm.trans hd)
  rw [hname] at hcell
  exact ⟨out, h0, hcell⟩

/-- What a defined genotype-quality step appends: with the integer encoding the cell of the
integer buffer, with the real encoding the cell of the float buffer, each replaced by 0 when
it is the missing sentinel; nothing with any other declaration. -/
theorem pushGq_spec (hdr : Header) (b : Buffers) (v w : List TPrecision) (i : Nat)
    (h : pushGq hdr b v i = some w) :
    (_isKeyPresent hdr "GQ" = true → _getFormatType hdr "GQ" = BCF_HT_INT →
      ∃ g, readAt b.gqInt i = some g ∧
        w = v ++ [if _missing_int32 g = true then some 0 else some (g : ℚ)]) ∧
    (_isKeyPresent hdr "GQ" = true → _getFormatType hdr "GQ" ≠ BCF_HT_INT →
      _getFormatType hdr "GQ" = BCF_HT_REAL →
      ∃ g, readAt b.gqFloat i = some g ∧
        w = v ++ [if _missing_float g = true then some 0 else g.toPrecision]) ∧
    (gqDeclared hdr = false → w = v) ∧
    AddsOne (gqDeclared hdr) v w := by
  unfold pushGq at h
  unfold AddsOne gqDeclared
  by_cases hGQ : _isKeyPresent hdr "GQ" = true
  · simp only [hGQ, if_true] at h
    by_cases hI : _getFormatType hdr "GQ" = BCF_HT_INT
    · simp only [hI, if_true, Option.bind_eq_some] at h
      obtain ⟨g, hg, hw⟩ := h
      have hw' : w = v ++ [if _missing_int32 g = true then some 0 else some (g : ℚ)] := by
        split at hw
        · rename_i hm
          simp only [hm, if_true]
          exact (Option.some.inj hw).symm
        · rename_i hm
          simp only [hm, if_false]
          exact (Option.some.inj hw).symm
      refine ⟨fun _ _ => ⟨g, hg, hw'⟩, fun _ hne => absurd hI hne, ?_, ?_⟩
      · simp [hGQ, hI]
      · simp only [hGQ, hI, decide_True, Bool.true_or, Bool.and_self, if_true]
        exact ⟨_, hw'⟩
    · simp only [hI, if_false] at h
      by_cases hR : _getFormatType hdr "GQ" = BCF_HT_REAL
      · simp only [hR, if_true, Option.bind_eq_some] at h
        obtain ⟨g, hg, hw⟩ := h
        have hw' : w = v ++ [if _missing_float g = true then some 0 else g.toPrecision] := by
          split at hw
          · rename_i hm
            simp only [hm, if_true]
            exact (Option.some.inj hw).symm
          · rename_i hm
            simp only [hm, if_false]
            exact (Option.some.inj hw).symm
        refine ⟨fun _ hi => absurd hi hI, fun _ _ _ => ⟨g, hg, hw'⟩, ?_, ?_⟩
        · simp [hGQ, hR]
        · simp only [hGQ, hR, decide_True, Bool.or_true, Bool.and_self, if_true]
          exact ⟨_, hw'⟩
      · simp only [hR, if_false] at h
        have hw : w = v := (Option.some.inj h).symm
        refine ⟨fun _ hi => absurd hi hI, fun _ _ hr => absurd hr hR, fun _ => hw, ?_⟩
        simp [hGQ, hI, hR, hw]
  · simp only [hGQ, if_false] at h
    have hw : w = v := (Option.some.inj h).symm
    refine ⟨fun hp => absurd hp hGQ, fun hp => absurd hp hGQ, fun _ => hw, ?_⟩
    simp [hGQ, hw]

/-- What a defined non-carrier branch does to the evidence vectors: one genotype-quality
entry as `pushGq` gives it, with RC declared the read count in `rcRef` and the read-depth
ratio in `rcRefRatio`, with DV declared the support ratio in `ratioRef`; the carrier vectors
stay as they are. -/
theorem nonCarrier_spec (hdr : Header) (b : Buffers) (precise : Bool) (st st' : LoopState)
    (i : Nat) (h : nonCarrier hdr b precise st i = some st') :
    pushGq hdr b st.gqRef i = some st'.gqRef ∧
    (if _isKeyPresent hdr "RC" = true then
        ∃ c x, readAt b.rc i = some c ∧ rcRatio b i = some x ∧
          st'.rcRef = st.rcRef ++ [some (c : ℚ)] ∧ st'.rcRefRatio = st.rcRefRatio ++ [x]
      else st'.rcRef = st.rcRef ∧ st'.rcRefRatio = st.rcRefRatio) ∧
    (if _isKeyPresent hdr "DV" = true then
        ∃ x, supportRatio b precise i = some x ∧ st'.ratioRef = st.ratioRef ++ [x]
      else st'.ratioRef = st.ratioRef) ∧
    st'.gqAlt = st.gqAlt ∧ st'.ratioAlt = st.ratioAlt ∧ st'.rcAltRatio = st.rcAltRatio := by
  unfold nonCarrier at h
  simp only [Option.bind_eq_some] at h
  obtain ⟨gq, hgq, st1, h1, h2⟩ := h
  have e1 : st1.gqRef = gq ∧
      (if _isKeyPresent hdr "RC" = true then
        ∃ c x, readAt b.rc i = some c ∧ rcRatio b i = some x ∧
          st1.rcRef = st.rcRef ++ [some (c : ℚ)] ∧ st1.rcRefRatio = st.rcRefRatio ++ [x]
      else st1.rcRef = st.rcRef ∧ st1.rcRefRatio = st.rcRefRatio) ∧
      st1.ratioRef = st.ratioRef ∧
      st1.gqAlt = st.gqAlt ∧ st1.ratioAlt = st.ratioAlt ∧ st1.rcAltRatio = st.rcAltRatio := by
    by_cases hRC : _isKeyPresent hdr "RC" = true
    · simp only [hRC, if_true, Option.bind_eq_some, Option.map_eq_some'] at h1 ⊢
      obtain ⟨c, hc, x, hx, rfl⟩ := h1
      exact ⟨rfl, ⟨c, x, hc, hx, rfl, rfl⟩, rfl, rfl, rfl, rfl⟩
    · simp only [hRC, if_false] at h1 ⊢
      cases h1
      exact ⟨rfl, ⟨rfl, rfl⟩, rfl, rfl, rfl, rfl⟩
  obtain ⟨a1, a2, a3, a4, a5, a6⟩ := e1
  by_cases hDV : _isKeyPresent hdr "DV" = true
  · simp only [hDV, if_true, Option.map_eq_some'] at h2 ⊢
    obtain ⟨x, hx, rfl⟩ := h2
    refine ⟨by simpa [a1] using hgq, ?_, ⟨x, hx, by simp [a3]⟩, a4, a5, a6⟩
    simpa using a2
  · simp only [hDV, if_false] at h2 ⊢
    cases h2
    exact ⟨by rw [a1]; exact hgq, a2, a3, a4, a5, a6⟩

/-- What a defined heterozygous branch does to the evidence vectors: one genotype-quality
entry as `pushGq` gives it, with RC declared the read-depth ratio in `rcAltRatio`, with DV
declared the support ratio in `ratioAlt`; the non-carrier vectors stay as they are. -/
theorem hetCarrier_spec (hdr : Header) (b : Buffers) (precise : Bool) (st st' : LoopState)
    (i : Nat) (h : hetCarrier hdr b precise st i = some st') :
    pushGq hdr b st.gqAlt i = some st'.gqAlt ∧
    (if _isKeyPresent hdr "RC" = true then
        ∃ x, rcRatio b i = some x ∧ st'.rcAltRatio = st.rcAltRatio ++ [x]
      else st'.rcAltRatio = st.rcAltRatio) ∧
    (if _isKeyPresent hdr "DV" = true then
        ∃ x, supportRatio b precise i = some x ∧ st'.ratioAlt = st.ratioAlt ++ [x]
      else st'.ratioAlt = st.ratioAlt) ∧
    st'.gqRef = st.gqRef ∧ st'.ratioRef = st.ratioRef ∧ st'.rcRefRatio = st.rcRefRatio ∧
    st'.rcRef = st.rcRef := by
  unfold hetCarrier at h
  simp only [Option.bind_eq_some] at h
  obtain ⟨st0, h0, gq, hgq, st1, h1, h2⟩ := h
  have e0 : evidence st0 = evidence st := by
    split at h0
    · simp only [Option.map_eq_some'] at h0
      obtain ⟨s, -, rfl⟩ := h0
      rfl
    · cases h0
      rfl
  simp only [evidence, Prod.mk.injEq] at e0
  obtain ⟨z1, z2, z3, z4, z5, z6, z7⟩ := e0
  have e1 : st1.gqAlt = gq ∧
      (if _isKeyPresent hdr "RC" = true then
        ∃ x, rcRatio b i = some x ∧ st1.rcAltRatio = st.rcAltRatio ++ [x]
      else st1.rcAltRatio = st.rcAltRatio) ∧
      st1.ratioAlt = st.ratioAlt ∧
      st1.gqRef = st.gqRef ∧ st1.ratioRef = st.ratioRef ∧ st1.rcRefRatio = st.rcRefRatio ∧
      st1.rcRef = st.rcRef := by
    by_cases hRC : _isKeyPresent hdr "RC" = true
    · simp only [hRC, if_true, Option.map_eq_some'] at h1 ⊢
      obtain ⟨x, hx, rfl⟩ := h1
      exact ⟨rfl, ⟨x, hx, by simp [z6]⟩, z4, z1, z3, z5, z7⟩
    · simp only [hRC, if_false] at h1 ⊢
      cases h1
      exact ⟨rfl, z6, z4, z1, z3, z5, z7⟩
  obtain ⟨a1, a2, a3, a4, a5, a6, a7⟩ := e1
  rw [z2] at hgq
  by_cases hDV : _isKeyPresent hdr "DV" = true
  · simp only [hDV, if_true, Option.map_eq_some'] at h2 ⊢
    obtain ⟨x, hx, rfl⟩ := h2
    refine ⟨by simpa [a1] using hgq, ?_, ⟨x, hx, by simp [a3]⟩, a4, a5, a6, a7⟩
    simpa using a2
  · simp only [hDV, if_false] at h2 ⊢
    cases h2
    exact ⟨by rw [a1]; exact hgq, a2, a3, a4, a5, a6, a7⟩

/-- The branch that one defined iteration takes, by the calls of the sample: the non-carrier
branch for two reference calls, the heterozygous branch for exactly one alt call, each from
a state with the evidence vectors of the state before; no change of the evidence vectors
for any other sample. -/
theorem sampleStep_class (hdr : Header) (b : Buffers) (precise : Bool) (st st' : LoopState)
    (i : Nat) (h : sampleStep hdr b precise st i = some st') :
    (alleleCopies 0 (callPair b i) = 2 →
      ∃ s, evidence s = evidence st ∧ nonCarrier hdr b precise s i = some st') ∧
    (alleleCopies 1 (callPair b i) = 1 →
      ∃ s, evidence s = evidence st ∧ hetCarrier hdr b precise s i = some st') ∧
    (alleleCopies 0 (callPair b i) ≠ 2 → alleleCopies 1 (callPair b i) ≠ 1 →
      evidence st' = evidence st) := by
  unfold sampleStep at h
  simp only [Option.bind_eq_some] at h
  obtain ⟨g0, hg0, h⟩ := h
  have hp1 : (callPair b i).1 = bcf_gt_allele g0 := by
    simp [callPair, readAt_eq_some _ _ _ hg0]
  by_cases hc0 : bcf_gt_allele g0 = -1
  · have hcalled : isCalled (callPair b i) = false := by simp [isCalled, hp1, hc0]
    simp only [hc0, ne_eq, not_true_eq_false, if_false] at h
    cases h
    simp [alleleCopies, hcalled, evidence]
  · simp only [ne_eq, hc0, not_false_eq_true, if_true, Option.bind_eq_some] at h
    obtain ⟨g1, hg1, h⟩ := h
    have hp2 : (callPair b i).2 = bcf_gt_allele g1 := by
      simp [callPair, readAt_eq_some _ _ _ hg1]
    by_cases hc1 : bcf_gt_allele g1 = -1
    · have hcalled : isCalled (callPair b i) = false := by simp [isCalled, hp2, hc1]
      simp only [hc1, not_true_eq_false, if_false] at h
      cases h
      simp [alleleCopies, hcalled, evidence]
    · have hcalled : isCalled (callPair b i) = true := by
        simp [isCalled, hp1, hp2, hc0, hc1]
      simp only [hc1, not_false_eq_true, if_true, Option.bind_eq_some] at h
      obtain ⟨s1, hs1, s2, hs2, h⟩ := h
      obtain ⟨ha0, rfl⟩ := incAc_spec _ _ _ hs1
      obtain ⟨ha1, rfl⟩ := incAc_spec _ _ _ hs2
      simp only [alleleCopies, hcalled, if_true, hp1, hp2]
      rcases ha0 with ha0 | ha0 <;> rcases ha1 with ha1 | ha1
      · rw [ha0, ha1] at h ⊢
        simp only [add_zero, if_true] at h
        refine ⟨fun _ => ⟨_, ?_, h⟩, fun hh => absurd hh (by decide), fun hh => absurd rfl hh⟩
        rfl
      · rw [ha0, ha1] at h ⊢
        simp at h
        refine ⟨fun hh => absurd hh (by decide), fun _ => ⟨_, ?_, h⟩, fun _ hh => absurd rfl hh⟩
        rfl
      · rw [ha0, ha1] at h ⊢
        simp at h
        refine ⟨fun hh => absurd hh (by decide), fun _ => ⟨_, ?_, h⟩, fun _ hh => absurd rfl hh⟩
        rfl
      · rw [ha0, ha1] at h ⊢
        simp at h
        subst h
        refine ⟨fun hh => absurd hh (by decide), fun hh => absurd hh (by decide), fun _ _ => rfl⟩

/-- The non-carriers among `n + 1` samples. -/
theorem nonCarriers_succ (b : Buffers) (n : Nat) :
    nonCarriers b (n + 1) =
      nonCarriers b n ++ (if alleleCopies 0 (callPair b n) = 2 then [n] else []) := by
  simp only [nonCarriers, List.range_succ, List.filter_append]
  congr 1
  by_cases h : alleleCopies 0 (callPair b n) = 2
  · simp [h]
  · simp [h]

/-- The heterozygous samples among `n + 1` samples. -/
theorem hetCarriers_succ (b : Buffers) (n : Nat) :
    hetCarriers b (n + 1) =
      hetCarriers b n ++ (if alleleCopies 1 (callPair b n) = 1 then [n] else []) := by
  simp only [hetCarriers, List.range_succ, List.filter_append]
  congr 1
  by_cases h : alleleCopies 1 (callPair b n) = 1
  · simp [h]
  · simp [h]

/-- What one defined iteration does to the evidence vectors, by the class of the sample. -/
theorem sampleStep_evidence (hdr : Header) (b : Buffers) (precise : Bool) (st st' : LoopState)
    (i : Nat) (h : sampleStep hdr b precise st i = some st') :
    (alleleCopies 0 (callPair b i) = 2 →
      AddsOne (gqDeclared hdr) st.gqRef st'.gqRef ∧
      AddsOne (_isKeyPresent hdr "RC") st.rcRef st'.rcRef ∧
      AddsOne (_isKeyPresent hdr "RC") st.rcRefRatio st'.rcRefRatio ∧
      AddsOne (_isKeyPresent hdr "DV") st.ratioRef st'.ratioRef ∧
      st'.gqAlt = st.gqAlt ∧ st'.ratioAlt = st.ratioAlt ∧ st'.rcAltRatio = st.rcAltRatio) ∧
    (alleleCopies 1 (callPair b i) = 1 →
      AddsOne (gqDeclared hdr) st.gqAlt st'.gqAlt ∧
      AddsOne (_isKeyPresent hdr "RC") st.rcAltRatio st'.rcAltRatio ∧
      AddsOne (_isKeyPresent hdr "DV") st.ratioAlt st'.ratioAlt ∧
      st'.gqRef = st.gqRef ∧ st'.ratioRef = st.ratioRef ∧ st'.rcRefRatio = st.rcRefRatio ∧
      st'.rcRef = st.rcRef) ∧
    (alleleCopies 0 (callPair b i) ≠ 2 → alleleCopies 1 (callPair b i) ≠ 1 →
      evidence st' = evidence st) := by
  obtain ⟨hn, hh, ho⟩ := sampleStep_class hdr b precise st st' i h
  refine ⟨?_, ?_, ho⟩
  · intro h0
    obtain ⟨s, hs, hnc⟩ := hn h0
    simp only [evidence, Prod.mk.injEq] at hs
    obtain ⟨z1, z2, z3, z4, z5, z6, z7⟩ := hs
    obtain ⟨hgq, hrc, hdv, k1, k2, k3⟩ := nonCarrier_spec hdr b precise s st' i hnc
    rw [z1] at hgq
    rw [z7, z5] at hrc
    rw [z3] at hdv
    refine ⟨(pushGq_spec hdr b _ _ i hgq).2.2.2, ?_, ?_, ?_, by rw [k1, z2], by rw [k2, z4],
      by rw [k3, z6]⟩
    · unfold AddsOne
      split
      · rename_i hRC
        rw [if_pos hRC] at hrc
        obtain ⟨c, x, -, -, e1, -⟩ := hrc
        exact ⟨_, e1⟩
      · rename_i hRC
        rw [if_neg hRC] at hrc
        exact hrc.1
    · unfold AddsOne
      split
      · rename_i hRC
        rw [if_pos hRC] at hrc
        obtain ⟨c, x, -, -, -, e2⟩ := hrc
        exact ⟨_, e2⟩
      · rename_i hRC
        rw [if_neg hRC] at hrc
        exact hrc.2
    · unfold AddsOne
      split
      · rename_i hDV
        rw [if_pos hDV] at hdv
        obtain ⟨x, -, e⟩ := hdv
        exact ⟨_, e⟩
      · rename_i hDV
        rw [if_neg hDV] at hdv
        exact hdv
  · intro h1
    obtain ⟨s, hs, hhc⟩ := hh h1
    simp only [evidence, Prod.mk.injEq] at hs
    obtain ⟨z1, z2, z3, z4, z5, z6, z7⟩ := hs
    obtain ⟨hgq, hrc, hdv, k1, k2, k3, k4⟩ := hetCarrier_spec hdr b precise s st' i hhc
    rw [z2] at hgq
    rw [z6] at hrc
    rw [z4] at hdv
    refine ⟨(pushGq_spec hdr b _ _ i hgq).2.2.2, ?_, ?_, by rw [k1, z1], by rw [k2, z3],
      by rw [k3, z5], by rw [k4, z7]⟩
    · unfold AddsOne
      split
      · rename_i hRC
        rw [if_pos hRC] at hrc
        obtain ⟨x, -, e⟩ := hrc
        exact ⟨_, e⟩
      · rename_i hRC
        rw [if_neg hRC] at hrc
        exact hrc
    · unfold AddsOne
      split
      · rename_i hDV
        rw [if_pos hDV] at hdv
        obtain ⟨x, -, e⟩ := hdv
        exact ⟨_, e⟩
      · rename_i hDV
        rw [if_neg hDV] at hdv
        exact hdv

/-- Appending one entry when declared raises the length by one. -/
theorem AddsOne.length_eq (d : Bool) (v w : List TPrecision) (h : AddsOne d v w) :
    w.length = v.length + (if d = true then 1 else 0) := by
  unfold AddsOne at h
  split at h
  · rename_i hd
    obtain ⟨x, rfl⟩ := h
    simp [hd]
  · rename_i hd
    subst h
    simp [hd]

/-- Without a heterozygous sample the carrier vectors stay as they start; without a
non-carrier sample the non-carrier vectors stay as they start. -/
theorem sampleLoopFrom_empty_class (hdr : Header) (b : Buffers) (precise : Bool)
    (st0 : LoopState) (n : Nat) : ∀ st, sampleLoopFrom hdr b precise st0 n = some st →
    (hetCarriers b n = [] →
      st.gqAlt = st0.gqAlt ∧ st.ratioAlt = st0.ratioAlt ∧ st.rcAltRatio = st0.rcAltRatio) ∧
    (nonCarriers b n = [] →
      st.gqRef = st0.gqRef ∧ st.ratioRef = st0.ratioRef ∧ st.rcRefRatio = st0.rcRefRatio ∧
      st.rcRef = st0.rcRef) := by
  induction n with
  | zero =>
    intro st h
    simp [sampleLoopFrom] at h
    subst h
    simp
  | succ n ih =>
    intro st h
    rw [sampleLoopFrom_succ, Option.bind_eq_some] at h
    obtain ⟨s, hs, hstep⟩ := h
    obtain ⟨i1, i2⟩ := ih s hs
    obtain ⟨hn, hh, ho⟩ := sampleStep_evidence _ _ _ _ _ _ hstep
    refine ⟨?_, ?_⟩
    · intro hnone
      rw [hetCarriers_succ] at hnone
      obtain ⟨hprev, hlast⟩ := List.append_eq_nil.mp hnone
      have h1 : alleleCopies 1 (callPair b n) ≠ 1 := by
        intro hc
        simp [hc] at hlast
      obtain ⟨j1, j2, j3⟩ := i1 hprev
      by_cases h0 : alleleCopies 0 (callPair b n) = 2
      · obtain ⟨-, -, -, -, a5, a6, a7⟩ := hn h0
        exact ⟨by rw [a5, j1], by rw [a6, j2], by rw [a7, j3]⟩
      · have he := ho h0 h1
        simp only [evidence, Prod.mk.injEq] at he
        obtain ⟨-, e2, -, e4, -, e6, -⟩ := he
        exact ⟨by rw [e2, j1], by rw [e4, j2], by rw [e6, j3]⟩
    · intro hnone
      rw [nonCarriers_succ] at hnone
      obtain ⟨hprev, hlast⟩ := List.append_eq_nil.mp hnone
      have h0 : alleleCopies 0 (callPair b n) ≠ 2 := by
        intro hc
        simp [hc] at hlast
      obtain ⟨j1, j2, j3, j4⟩ := i2 hprev
      by_cases h1 : alleleCopies 1 (callPair b n) = 1
      · obtain ⟨-, -, -, a4, a5, a6, a7⟩ := hh h1
        exact ⟨by rw [a4, j1], by rw [a5, j2], by rw [a6, j3], by rw [a7, j4]⟩
      · have he := ho h0 h1
        simp only [evidence, Prod.mk.injEq] at he
        obtain ⟨e1, -, e3, -, e5, -, e7⟩ := he
        exact ⟨by rw [e1, j1], by rw [e3, j2], by rw [e5, j3], by rw [e7, j4]⟩

/-- The median summary of an empty evidence vector is 0. -/
theorem medianOf_nil : medianOf [] = some 0 := by
  simp [medianOf, finiteValues, _getMedian]

/-! ## Frequency and missing rate -/

/-- At most every sample is uncalled. -/
theorem countUncalled_le (b : Buffers) (n : Nat) : countUncalled b n ≤ n := by
  induction n with
  | zero => simp [countUncalled]
  | succ n ih =>
    rw [countUncalled_succ]
    split <;> omega

/-- With a fully called sample, fewer samples are uncalled than there are samples. -/
theorem countUncalled_lt (b : Buffers) (n i : Nat) (hi : i < n)
    (hc : isCalled (callPair b i) = true) : countUncalled b n < n := by
  induction n with
  | zero => omega
  | succ n ih =>
    rw [countUncalled_succ]
    by_cases h : i < n
    · have := ih h
      split <;> omega
    · have hin : i = n := by omega
      subst hin
      have := countUncalled_le b i
      simp only [hc, if_true]
      omega

/-- The frequency and the missing rate of a summary, from the counters of the loop state. -/
theorem summarise_rates (hdr : Header) (b : Buffers) (rec : Record) (st : LoopState)
    (s : Summary) (h : summarise hdr b rec st = some s) :
    s.af = fdiv st.ac1 (st.ac0 + st.ac1) ∧
    s.missingRate = fdiv st.uncalled (bcf_hdr_nsamples hdr) ∧
    s.refratio = medianOf st.ratioRef ∧ s.altratio = medianOf st.ratioAlt ∧
    s.refgq = medianOf st.gqRef ∧ s.altgq = medianOf st.gqAlt ∧
    s.rcMed = medianOf st.rcRef := by
  simp only [summarise, Option.map_eq_some'] at h
  obtain ⟨len, -, rfl⟩ := h
  exact ⟨rfl, rfl, rfl, rfl, rfl, rfl, rfl⟩

/-- The frequency column and the missing-rate column of a record with a fully called
sample, as exact rationals of the allele counts. -/
theorem rates_columns (hdr : Header) (b0 : Buffers) (rec : Record)
    (hread : recordReadable hdr b0 rec = true)
    (hcalled : ∃ i, i < bcf_hdr_nsamples hdr ∧
      isCalled (callPair (extractFields hdr rec b0).1 i) = true) :
    ∃ out, processRecord hdr b0 rec = some out ∧
      out.2[6]? = some (some (.real (some
        ((countAllele 1 (extractFields hdr rec b0).1 (bcf_hdr_nsamples hdr) : ℚ) /
          ((countAllele 0 (extractFields hdr rec b0).1 (bcf_hdr_nsamples hdr) : ℚ) +
            (countAllele 1 (extractFields hdr rec b0).1 (bcf_hdr_nsamples hdr) : ℚ)))))) ∧
      out.2[8]? = some (some (.real (some
        ((countUncalled (extractFields hdr rec b0).1 (bcf_hdr_nsamples hdr) : ℚ) /
          (bcf_hdr_nsamples hdr : ℚ))))) := by
  obtain ⟨st, s, row, hloop, hsum, hrow, hproc⟩ := processRecord_defined hdr b0 rec hread
  obtain ⟨c0, c1, c2, c3⟩ := sampleLoopFrom_counts hdr _ _ {} _ st hloop
  simp only [zero_add] at c0 c1 c2
  obtain ⟨i, hi, hc⟩ := hcalled
  have hlt := countUncalled_lt _ _ i hi hc
  obtain ⟨haf, hmr, -⟩ := summarise_rates hdr _ rec st s hsum
  have h6 : (cHeader hdr)[6]? = some "vaf" := cHeader_fixed_get hdr 6 (by decide)
  have h8 : (cHeader hdr)[8]? = some "missingrate" := cHeader_fixed_get hdr 8 (by decide)
  have hden : st.ac0 + st.ac1 ≠ 0 := by
    rw [c0, c1]
    omega
  have hn : (bcf_hdr_nsamples hdr : Int) ≠ 0 := by omega
  refine ⟨_, hproc, ?_, ?_⟩
  · refine writeRow_get hdr rec _ _ s _ row hrow 6 "vaf" h6 _ ?_
    simp only [writeColumn, haf, fdiv, hden, if_false]
    simp [c0, c1]
  · refine writeRow_get hdr rec _ _ s _ row hrow 8 "missingrate" h8 _ ?_
    simp only [writeColumn, hmr, fdiv, hn, if_false]
    simp [c2]

/-- Claim C15. For every record whose processing is defined and that has a fully called
sample (so at least one sample), the frequency column is alt count / (ref count + alt count)
and the missing-rate column is uncalled count / number of samples, as exact rationals; for
the calls 0/0, 0/0, 0/1, 1/1 and one uncalled sample the frequency is 3/8 and the missing
rate 1/5. -/
theorem allele_frequency_and_missing_rate (hdr : Header) (b0 : Buffers) (rec : Record)
    (hread : recordReadable hdr b0 rec = true)
    (hcalled : ∃ i, i < bcf_hdr_nsamples hdr ∧
      isCalled (callPair (extractFields hdr rec b0).1 i) = true) :
    (writeHeader hdr)[6]? = some "vaf" ∧ (writeHeader hdr)[8]? = some "missingrate" ∧
    (∃ out, processRecord hdr b0 rec = some out ∧
      out.2[6]? = some (some (.real (some
        ((countAllele 1 (extractFields hdr rec b0).1 (bcf_hdr_nsamples hdr) : ℚ) /
          ((countAllele 0 (extractFields hdr rec b0).1 (bcf_hdr_nsamples hdr) : ℚ) +
            (countAllele 1 (extractFields hdr rec b0).1 (bcf_hdr_nsamples hdr) : ℚ)))))) ∧
      out.2[8]? = some (some (.real (some
        ((countUncalled (extractFields hdr rec b0).1 (bcf_hdr_nsamples hdr) : ℚ) /
          (bcf_hdr_nsamples hdr : ℚ)))))) ∧
    (∃ out, processRecord sampleHeader {} sampleRecord = some out ∧
      out.2[6]? = some (some (.real (some (3 / 8)))) ∧
      out.2[8]? = some (some (.real (some (1 / 5))))) := by
  refine ⟨cHeader_fixed_get hdr 6 (by decide), cHeader_fixed_get hdr 8 (by decide),
    rates_columns hdr b0 rec hread hcalled, ?_⟩
  obtain ⟨out, hout, h6, h8⟩ := rates_columns sampleHeader {} sampleRecord (by decide)
    ⟨0, by decide, by decide⟩
  have a1 : countAllele 1 (extractFields sampleHeader sampleRecord {}).1
      (bcf_hdr_nsamples sampleHeader) = 3 := by decide
  have a0 : countAllele 0 (extractFields sampleHeader sampleRecord {}).1
      (bcf_hdr_nsamples sampleHeader) = 5 := by decide
  have au : countUncalled (extractFields sampleHeader sampleRecord {}).1
      (bcf_hdr_nsamples sampleHeader) = 1 := by decide
  have an : bcf_hdr_nsamples sampleHeader = 5 := by decide
  rw [a0, a1] at h6
  rw [au, an] at h8
  refine ⟨out, hout, ?_, ?_⟩
  · rw [h6]
    norm_num
  · rw [h8]
    norm_num

/-- Claim C15 at the record with the calls 0/0, 0/0, 0/1, 1/1, ./. of five samples. -/
theorem allele_frequency_and_missing_rate_witness :
    ∃ out, processRecord sampleHeader {} sampleRecord = some out ∧
      out.2[6]? = some (some (.real (some
        ((countAllele 1 (extractFields sampleHeader sampleRecord {}).1
            (bcf_hdr_nsamples sampleHeader) : ℚ) /
          ((countAllele 0 (extractFields sampleHeader sampleRecord {}).1
              (bcf_hdr_nsamples sampleHeader) : ℚ) +
            (countAllele 1 (extractFields sampleHeader sampleRecord {}).1
              (bcf_hdr_nsamples sampleHeader) : ℚ)))))) ∧
      out.2[8]? = some (some (.real (some
        ((countUncalled (extractFields sampleHeader sampleRecord {}).1
            (bcf_hdr_nsamples sampleHeader) : ℚ) /
          (bcf_hdr_nsamples sampleHeader : ℚ))))) :=
  (allele_frequency_and_missing_rate sampleHeader {} sampleRecord (by decide)
    ⟨0, by decide, by decide⟩).2.2.1

/-- Claim C16. The missing-value tests recognise each sentinel exactly: a flag is missing
iff it is false; a text value is missing iff it is empty or equal to "."; an 8-, 16- or
32-bit signed integer is missing iff it equals the reserved sentinel of its width, which is
the minimum value of that width; so no other integer or text value is reported missing. -/
theorem missing_recognises_sentinels :
    (∀ value : Bool, _missing_bool value = true ↔ value = false) ∧
    (∀ value : String, _missing_string value = true ↔ (value = "" ∨ value = ".")) ∧
    (∀ value : Int, _missing_int8 value = true ↔ value = bcf_int8_missing) ∧
    (∀ value : Int, _missing_int16 value = true ↔ value = bcf_int16_missing) ∧
    (∀ value : Int, _missing_int32 value = true ↔ value = bcf_int32_missing) ∧
    bcf_int8_missing = -2 ^ 7 ∧ bcf_int16_missing = -2 ^ 15 ∧ bcf_int32_missing = -2 ^ 31 ∧
    (∀ value : Int, -2 ^ 7 < value → _missing_int8 value = false) ∧
    (∀ value : Int, -2 ^ 15 < value → _missing_int16 value = false) ∧
    (∀ value : Int, -2 ^ 31 < value → _missing_int32 value = false) := by
  refine ⟨?_, ?_, ?_, ?_, ?_, by decide, by decide, by decide, ?_, ?_, ?_⟩
  · intro value
    cases value <;> simp [_missing_bool]
  · intro value
    simp only [_missing_string, Bool.or_eq_true, beq_iff_eq]
    rw [String.isEmpty_iff]
  · intro value
    simp [_missing_int8]
  · intro value
    simp [_missing_int16]
  · intro value
    simp [_missing_int32]
  · intro value hv
    simp only [_missing_int8, bcf_int8_missing, beq_eq_false_iff_ne, ne_eq]
    omega
  · intro value hv
    simp only [_missing_int16, bcf_int16_missing, beq_eq_false_iff_ne, ne_eq]
    omega
  · intro value hv
    simp only [_missing_int32, bcf_int32_missing, beq_eq_false_iff_ne, ne_eq]
    omega

/-! ## Claims on the evidence vectors -/

/-- The support ratio that a defined read gives: with the precise flag from the split-read
cells, without it from the discordant-pair cells, as alt / (alt + ref) for a denominator
other than 0. -/
theorem supportRatio_spec (b : Buffers) (precise : Bool) (i : Nat) (x : TPrecision)
    (h : supportRatio b precise i = some x) :
    (precise = true → ∃ v r, readAt b.rv i = some v ∧ readAt b.rr i = some r ∧
      (v + r ≠ 0 → x = some ((v : ℚ) / ((v : ℚ) + (r : ℚ))))) ∧
    (precise = false → ∃ v r, readAt b.dv i = some v ∧ readAt b.dr i = some r ∧
      (v + r ≠ 0 → x = some ((v : ℚ) / ((v : ℚ) + (r : ℚ))))) := by
  unfold supportRatio at h
  have key : ∀ (v r d : Int), addInt32 r v = some d → v + r ≠ 0 →
      fdiv v d = some ((v : ℚ) / ((v : ℚ) + (r : ℚ))) := by
    intro v r d hd hne
    unfold addInt32 at hd
    split at hd
    · have hd' : d = r + v := (Option.some.inj hd).symm
      subst hd'
      have hne' : r + v ≠ 0 := by omega
      simp only [fdiv, hne', if_false]
      push_cast
      rw [add_comm]
    · cases hd
  cases precise with
  | true =>
    simp only [if_true, Option.bind_eq_some, Option.map_eq_some'] at h
    obtain ⟨v, hv, r, hr, d, hd, rfl⟩ := h
    exact ⟨fun _ => ⟨v, r, hv, hr, key v r d hd⟩, fun hh => absurd hh (by decide)⟩
  | false =>
    simp only [Bool.false_eq_true, if_false, Option.bind_eq_some, Option.map_eq_some'] at h
    obtain ⟨v, hv, r, hr, d, hd, rfl⟩ := h
    exact ⟨fun hh => absurd hh (by decide), fun _ => ⟨v, r, hv, hr, key v r d hd⟩⟩

/-- Claim C18. For every sample of the non-carrier or of the heterozygous class whose
iteration is defined, with GQ declared, the entry appended to the genotype-quality vector of
the class is 0 when the GQ cell of the sample is the missing sentinel of the declared
encoding (integer or real) and the raw GQ value otherwise: the integer `g` itself, the
number `q` of a real cell; the sample always gets its entry. For the real cells 25/2 and
missing of a 0/0 and a 0/1 sample the vectors are [25/2] and [0]; for the integer cells 10,
20 (0/0), 30 (0/1) and a missing cell of a 0/0 sample they are [10, 20, 0] and [30]. -/
theorem gq_entry (hdr : Header) (b : Buffers) (precise : Bool) (st : LoopState) (i : Nat)
    (hi : i < bcf_hdr_nsamples hdr) (hread : sampleReadable hdr b precise i = true)
    (hGQ : _isKeyPresent hdr "GQ" = true) :
    (∀ g : Int, _missing_int32 g = true ↔ g = bcf_int32_missing) ∧
    (∀ g : BcfFloat, _missing_float g = true ↔ g = BcfFloat.missing) ∧
    (∃ st', sampleStep hdr b precise st i = some st' ∧
      (alleleCopies 0 (callPair b i) = 2 →
        (_getFormatType hdr "GQ" = BCF_HT_INT →
          ∃ g, readAt b.gqInt i = some g ∧
            st'.gqRef = st.gqRef ++ [if g = bcf_int32_missing then some 0 else some (g : ℚ)]) ∧
        (_getFormatType hdr "GQ" = BCF_HT_REAL →
          ∃ g, readAt b.gqFloat i = some g ∧
            st'.gqRef = st.gqRef ++
              [match g with
                | .missing => some 0
                | .num q => some q
                | .nonFinite => none])) ∧
      (alleleCopies 1 (callPair b i) = 1 →
        (_getFormatType hdr "GQ" = BCF_HT_INT →
          ∃ g, readAt b.gqInt i = some g ∧
            st'.gqAlt = st.gqAlt ++ [if g = bcf_int32_missing then some 0 else some (g : ℚ)]) ∧
        (_getFormatType hdr "GQ" = BCF_HT_REAL →
          ∃ g, readAt b.gqFloat i = some g ∧
            st'.gqAlt = st.gqAlt ++
              [match g with
                | .missing => some 0
                | .num q => some q
                | .nonFinite => none]))) ∧
    (sampleLoop (realGqHeader ["s1", "s2"])
        (extractFields (realGqHeader ["s1", "s2"])
          (realGqRecord [2, 2, 2, 4] [.num (25 / 2), .missing]) {}).1 false).map
      (fun s => (s.gqRef, s.gqAlt)) = some ([some (25 / 2)], [some 0]) ∧
    (sampleLoop (headerOf ["GQ"] ["s1", "s2", "s3", "s4"])
        (extractFields (headerOf ["GQ"] ["s1", "s2", "s3", "s4"])
          (formatRecord [2, 2, 2, 2, 2, 4, 2, 2] [("GQ", [10, 20, 30, -2147483648])] []) {}).1
        false).map
      (fun s => (s.gqRef, s.gqAlt)) = some ([some 10, some 20, some 0], [some 30]) := by
  have hne : BCF_HT_REAL ≠ BCF_HT_INT := by decide
  have hint : ∀ g : Int, (if _missing_int32 g = true then (some 0 : TPrecision) else some (g : ℚ))
      = if g = bcf_int32_missing then some 0 else some (g : ℚ) := by
    intro g
    simp [_missing_int32]
  have hflt : ∀ g : BcfFloat, (if _missing_float g = true then (some 0 : TPrecision)
      else g.toPrecision) =
        (match g with
          | .missing => some 0
          | .num q => some q
          | .nonFinite => none) := by
    intro g
    cases g <;> rfl
  refine ⟨fun g => by simp [_missing_int32], ?_, ?_, by rfl, by rfl⟩
  · intro g
    cases g <;> simp [_missing_float]
  obtain ⟨st', hstep⟩ := sampleStep_defined hdr b precise st i hi hread
  obtain ⟨hn, hh, -⟩ := sampleStep_class hdr b precise st st' i hstep
  refine ⟨st', hstep, ?_, ?_⟩
  · intro h0
    obtain ⟨s, hs, hnc⟩ := hn h0
    simp only [evidence, Prod.mk.injEq] at hs
    have hgq := (nonCarrier_spec hdr b precise s st' i hnc).1
    rw [hs.1] at hgq
    obtain ⟨pI, pR, -, -⟩ := pushGq_spec hdr b _ _ i hgq
    refine ⟨fun hI => ?_, fun hR => ?_⟩
    · obtain ⟨g, hg, hv⟩ := pI hGQ hI
      exact ⟨g, hg, by rw [hv, hint]⟩
    · obtain ⟨g, hg, hv⟩ := pR hGQ (by rw [hR]; exact hne) hR
      exact ⟨g, hg, by rw [hv, hflt]⟩
  · intro h1
    obtain ⟨s, hs, hhc⟩ := hh h1
    simp only [evidence, Prod.mk.injEq] at hs
    have hgq := (hetCarrier_spec hdr b precise s st' i hhc).1
    rw [hs.2.1] at hgq
    obtain ⟨pI, pR, -, -⟩ := pushGq_spec hdr b _ _ i hgq
    refine ⟨fun hI => ?_, fun hR => ?_⟩
    · obtain ⟨g, hg, hv⟩ := pI hGQ hI
      exact ⟨g, hg, by rw [hv, hint]⟩
    · obtain ⟨g, hg, hv⟩ := pR hGQ (by rw [hR]; exact hne) hR
      exact ⟨g, hg, by rw [hv, hflt]⟩

/-- Claim C18 at the first sample (call 0/0, real GQ 25/2) of a two-sample record with the
real encoding: the entry is 25/2. -/
theorem gq_entry_witness :
    ∃ st', sampleStep (realGqHeader ["s1", "s2"])
        (extractFields (realGqHeader ["s1", "s2"])
          (realGqRecord [2, 2, 2, 4] [.num (25 / 2), .missing]) {}).1 false {} 0 = some st' ∧
      st'.gqRef = [some (25 / 2)] := by
  obtain ⟨st', h1, h2, -⟩ := (gq_entry (realGqHeader ["s1", "s2"])
    (extractFields (realGqHeader ["s1", "s2"])
      (realGqRecord [2, 2, 2, 4] [.num (25 / 2), .missing]) {}).1
    false {} 0 (by decide) (by decide) (by decide)).2.2.1
  obtain ⟨g, hg, hv⟩ := (h2 (by decide)).2 (by rfl)
  have hg' : readAt (extractFields (realGqHeader ["s1", "s2"])
      (realGqRecord [2, 2, 2, 4] [.num (25 / 2), .missing]) {}).1.gqFloat 0
      = some (.num (25 / 2)) := by rfl
  have hgeq : g = .num (25 / 2) := Option.some.inj (hg.symm.trans hg')
  subst hgeq
  exact ⟨st', h1, hv⟩

/-- Claim C19. For every record with DV declared and every sample of the non-carrier or of
the heterozygous class whose iteration is defined, the support-ratio entry with a
denominator other than 0 is split-read alt / (split-read alt + split-read ref) when the
precise flag of the record is set and discordant alt / (discordant alt + discordant ref)
otherwise, as an exact rational; the rule is the same in both classes. -/
theorem support_ratio_entry (hdr : Header) (rec : Record) (b0 : Buffers) (st : LoopState)
    (i : Nat) (hi : i < bcf_hdr_nsamples hdr)
    (hread : sampleReadable hdr (extractFields hdr rec b0).1 (extractFields hdr rec b0).2 i = true)
    (hDV : _isKeyPresent hdr "DV" = true) :
    (extractFields hdr rec b0).2 = (_isKeyPresent hdr "PRECISE" && rec.infoFlag "PRECISE") ∧
    ∃ st', sampleStep hdr (extractFields hdr rec b0).1 (extractFields hdr rec b0).2 st i
        = some st' ∧
      (alleleCopies 0 (callPair (extractFields hdr rec b0).1 i) = 2 →
        ∃ x, st'.ratioRef = st.ratioRef ++ [x] ∧
          ((extractFields hdr rec b0).2 = true →
            ∃ v r, readAt (extractFields hdr rec b0).1.rv i = some v ∧
              readAt (extractFields hdr rec b0).1.rr i = some r ∧
              (v + r ≠ 0 → x = some ((v : ℚ) / ((v : ℚ) + (r : ℚ))))) ∧
          ((extractFields hdr rec b0).2 = false →
            ∃ v r, readAt (extractFields hdr rec b0).1.dv i = some v ∧
              readAt (extractFields hdr rec b0).1.dr i = some r ∧
              (v + r ≠ 0 → x = some ((v : ℚ) / ((v : ℚ) + (r : ℚ)))))) ∧
      (alleleCopies 1 (callPair (extractFields hdr rec b0).1 i) = 1 →
        ∃ x, st'.ratioAlt = st.ratioAlt ++ [x] ∧
          ((extractFields hdr rec b0).2 = true →
            ∃ v r, readAt (extractFields hdr rec b0).1.rv i = some v ∧
              readAt (extractFields hdr rec b0).1.rr i = some r ∧
              (v + r ≠ 0 → x = some ((v : ℚ) / ((v : ℚ) + (r : ℚ))))) ∧
          ((extractFields hdr rec b0).2 = false →
            ∃ v r, readAt (extractFields hdr rec b0).1.dv i = some v ∧
              readAt (extractFields hdr rec b0).1.dr i = some r ∧
              (v + r ≠ 0 → x = some ((v : ℚ) / ((v : ℚ) + (r : ℚ)))))) := by
  refine ⟨rfl, ?_⟩
  obtain ⟨st', hstep⟩ := sampleStep_defined hdr _ _ st i hi hread
  obtain ⟨hn, hh, -⟩ := sampleStep_class hdr _ _ st st' i hstep
  refine ⟨st', hstep, ?_, ?_⟩
  · intro h0
    obtain ⟨s, hs, hnc⟩ := hn h0
    simp only [evidence, Prod.mk.injEq] at hs
    have hdv := (nonCarrier_spec hdr _ _ s st' i hnc).2.2.1
    rw [if_pos hDV, hs.2.2.1] at hdv
    obtain ⟨x, hx, hvec⟩ := hdv
    obtain ⟨p1, p2⟩ := supportRatio_spec _ _ i x hx
    exact ⟨x, hvec, p1, p2⟩
  · intro h1
    obtain ⟨s, hs, hhc⟩ := hh h1
    simp only [evidence, Prod.mk.injEq] at hs
    have hdv := (hetCarrier_spec hdr _ _ s st' i hhc).2.2.1
    rw [if_pos hDV, hs.2.2.2.1] at hdv
    obtain ⟨x, hx, hvec⟩ := hdv
    obtain ⟨p1, p2⟩ := supportRatio_spec _ _ i x hx
    exact ⟨x, hvec, p1, p2⟩

/-- Claim C19 at a precise record of two samples with the calls 0/0 and 0/1. -/
theorem support_ratio_entry_witness :
    (extractFields (headerOf ["DV", "DR", "RV", "RR", "PRECISE"] ["s1", "s2"])
      (formatRecord [2, 2, 2, 4]
        [("DV", [1, 3]), ("DR", [3, 1]), ("RV", [2, 6]), ("RR", [6, 2])] ["PRECISE"]) {}).2
      = true ∧
    ∃ st', sampleStep (headerOf ["DV", "DR", "RV", "RR", "PRECISE"] ["s1", "s2"])
        (extractFields (headerOf ["DV", "DR", "RV", "RR", "PRECISE"] ["s1", "s2"])
          (formatRecord [2, 2, 2, 4]
            [("DV", [1, 3]), ("DR", [3, 1]), ("RV", [2, 6]), ("RR", [6, 2])] ["PRECISE"]) {}).1
        (extractFields (headerOf ["DV", "DR", "RV", "RR", "PRECISE"] ["s1", "s2"])
          (formatRecord [2, 2, 2, 4]
            [("DV", [1, 3]), ("DR", [3, 1]), ("RV", [2, 6]), ("RR", [6, 2])] ["PRECISE"]) {}).2
        {} 1 = some st' ∧
      ∃ x, st'.ratioAlt = ([] : List TPrecision) ++ [x] := by
  obtain ⟨st', h1, -, h3⟩ := (support_ratio_entry
    (headerOf ["DV", "DR", "RV", "RR", "PRECISE"] ["s1", "s2"])
    (formatRecord [2, 2, 2, 4]
      [("DV", [1, 3]), ("DR", [3, 1]), ("RV", [2, 6]), ("RR", [6, 2])] ["PRECISE"]) {} {} 1
    (by decide) (by decide) (by decide)).2
  obtain ⟨x, hx, -⟩ := h3 (by decide)
  exact ⟨by decide, st', h1, x, hx⟩

/-- Claim C20. For every record whose processing is defined: with no heterozygous sample
the carrier vectors are empty and the summaries altgq and altratio are 0; with no 0/0 sample
the non-carrier vectors are empty and the summaries refgq, refratio and medianrc are 0; the
columns of these names in the row show 0. -/
theorem empty_class_summaries (hdr : Header) (b0 : Buffers) (rec : Record)
    (hread : recordReadable hdr b0 rec = true) :
    ∃ out st s, processRecord hdr b0 rec = some out ∧
      sampleLoop hdr (extractFields hdr rec b0).1 (extractFields hdr rec b0).2 = some st ∧
      summarise hdr (extractFields hdr rec b0).1 rec st = some s ∧
      (hetCarriers (extractFields hdr rec b0).1 (bcf_hdr_nsamples hdr) = [] →
        st.gqAlt = [] ∧ st.ratioAlt = [] ∧ s.altgq = some 0 ∧ s.altratio = some 0 ∧
        ∀ (i : Nat) (name : String), (writeHeader hdr)[i]? = some name →
          name = "altgq" ∨ name = "altratio" →
          out.2[i]? = some (some (.real (some 0)))) ∧
      (nonCarriers (extractFields hdr rec b0).1 (bcf_hdr_nsamples hdr) = [] →
        st.gqRef = [] ∧ st.ratioRef = [] ∧ st.rcRef = [] ∧
        s.refgq = some 0 ∧ s.refratio = some 0 ∧ s.rcMed = some 0 ∧
        ∀ (i : Nat) (name : String), (writeHeader hdr)[i]? = some name →
          name = "refgq" ∨ name = "refratio" ∨ name = "medianrc" →
          out.2[i]? = some (some (.real (some 0)))) := by
  obtain ⟨st, s, row, hloop, hsum, hrow, hproc⟩ := processRecord_defined hdr b0 rec hread
  obtain ⟨hhet, hnon⟩ := sampleLoopFrom_empty_class hdr _ _ {} _ st hloop
  obtain ⟨-, -, s1, s2, s3, s4, s5⟩ := summarise_rates hdr _ rec st s hsum
  refine ⟨_, st, s, hproc, hloop, hsum, ?_, ?_⟩
  · intro hnone
    obtain ⟨e1, e2, -⟩ := hhet hnone
    have e1' : st.gqAlt = [] := e1
    have e2' : st.ratioAlt = [] := e2
    have a1 : s.altgq = some 0 := by rw [s4, e1', medianOf_nil]
    have a2 : s.altratio = some 0 := by rw [s2, e2', medianOf_nil]
    refine ⟨e1', e2', a1, a2, ?_⟩
    intro i name hname hcase
    refine writeRow_get hdr rec _ _ s _ row hrow i name hname _ ?_
    rcases hcase with rfl | rfl
    · simp [writeColumn, a1]
    · simp [writeColumn, a2]
  · intro hnone
    obtain ⟨e1, e2, -, e4⟩ := hnon hnone
    have e1' : st.gqRef = [] := e1
    have e2' : st.ratioRef = [] := e2
    have e4' : st.rcRef = [] := e4
    have a1 : s.refgq = some 0 := by rw [s3, e1', medianOf_nil]
    have a2 : s.refratio = some 0 := by rw [s1, e2', medianOf_nil]
    have a3 : s.rcMed = some 0 := by rw [s5, e4', medianOf_nil]
    refine ⟨e1', e2', e4', a1, a2, a3, ?_⟩
    intro i name hname hcase
    refine writeRow_get hdr rec _ _ s _ row hrow i name hname _ ?_
    rcases hcase with rfl | rfl | rfl
    · simp [writeColumn, a1]
    · simp [writeColumn, a2]
    · simp [writeColumn, a3]

/-- Claim C20 at a record of one sample with the call 0/0 and an integer GQ: the carrier
summary altgq in column 10 is 0. -/
theorem empty_class_summaries_witness :
    recordReadable (headerOf ["GQ"] ["s1"]) {} (formatRecord [2, 2] [("GQ", [30])] []) = true ∧
    (writeHeader (headerOf ["GQ"] ["s1"]))[10]? = some "altgq" ∧
    ∃ out, processRecord (headerOf ["GQ"] ["s1"]) {} (formatRecord [2, 2] [("GQ", [30])] [])
        = some out ∧
      out.2[10]? = some (some (.real (some 0))) := by
  obtain ⟨out, st, s, h1, -, -, h4, -⟩ := empty_class_summaries (headerOf ["GQ"] ["s1"]) {}
    (formatRecord [2, 2] [("GQ", [30])] []) (by decide)
  exact ⟨by decide, by decide, out, h1,
    (h4 (by decide)).2.2.2.2 10 "altgq" (by decide) (Or.inl rfl)⟩

/-! ## Buffers across records and reads without a header test -/

/-- The size computation when no end position is in the buffer: the insertion length for
the SV type "INS", and 1 otherwise. -/
theorem svlen_without_end (b : Buffers) (rec : Record) (h : b.svend = none) :
    svlen b rec = if b.svt = some "INS" then readAt b.inslen 0 else some 1 := by
  unfold svlen
  rw [h]
  cases hs : b.svt with
  | none => simp
  | some t =>
    by_cases ht : t = "INS"
    · simp [ht]
    · simp [ht]

/-- Claim C11 fails on the code. A record with no end position and SV type "DEL" that
follows a record with END 2000 gets, not 1, the size 2000 - 4999 from the END value of the
earlier record; the same record as the first one of a run whose header does not declare END
gets the size 1, and an insertion without END gets its insertion length. -/
theorem size_without_end_stale :
    rowField (run sizeHeader
      [sizeRecord 999 (some 2000) (some "DEL") none,
       sizeRecord 4999 none (some "DEL") none]) 1 4 = some (some (.int (2000 - 4999))) ∧
    rowField (run sizeHeader
      [sizeRecord 999 (some 2000) (some "DEL") none,
       sizeRecord 4999 none (some "DEL") none]) 1 2 = some (some (.int 2000)) ∧
    rowField (run (headerOf ["SVTYPE", "INSLEN"] ["s1"])
      [sizeRecord 4999 none (some "DEL") none]) 0 4 = some (some (.int 1)) ∧
    rowField (run (headerOf ["SVTYPE", "INSLEN"] ["s1"])
      [sizeRecord 4999 none (some "INS") (some 120)]) 0 4 = some (some (.int 120)) := by
  decide

/-- Claim C12 as stated fails: the record with END 1050, start 1000, SV type "INS" and
insertion length 120 has the size 120, not a size computed from the end position. -/
theorem size_insertion_with_end_counterexample :
    (processRecord sizeHeader {} (sizeRecord 999 (some 1050) (some "INS") (some 120))).map
        (fun r => (r.2[1]?, r.2[2]?, r.2[4]?)) =
      some (some (some (.int 1000)), some (some (.int 1050)), some (some (.int 120))) ∧
    (120 : Int) ≠ 1050 - 1000 ∧ (120 : Int) ≠ 1050 - 999 := by
  decide

/-- Claim C12, amended. For every record whose processing is defined and that has both
an end position and the SV type "INS", the size column is the insertion length of the
record, not a value computed from the end position, which the end column still shows. -/
theorem size_column_insertion (hdr : Header) (rec : Record) (b0 : Buffers)
    (e l : Int) (erest lrest : List Int)
    (hEND : _isKeyPresent hdr "END" = true)
    (hrecEND : rec.infoInt32 "END" = some (e :: erest))
    (hSVT : _isKeyPresent hdr "SVTYPE" = true)
    (hrecSVT : rec.infoString "SVTYPE" = some "INS")
    (hINS : _isKeyPresent hdr "INSLEN" = true)
    (hrecINS : rec.infoInt32 "INSLEN" = some (l :: lrest))
    (hread : recordReadable hdr b0 rec = true) :
    (writeHeader hdr)[2]? = some "end" ∧ (writeHeader hdr)[4]? = some "size" ∧
    ∃ out, processRecord hdr b0 rec = some out ∧
      out.2[2]? = some (some (.int e)) ∧
      out.2[4]? = some (some (.int l)) := by
  have h2 : (cHeader hdr)[2]? = some "end" := cHeader_fixed_get hdr 2 (by decide)
  have h4 : (cHeader hdr)[4]? = some "size" := cHeader_fixed_get hdr 4 (by decide)
  obtain ⟨st, s, row, -, hsum, hrow, hproc⟩ := processRecord_defined hdr b0 rec hread
  have hsvend : (extractFields hdr rec b0).1.svend =
      some (e :: erest ++ (b0.svend.getD []).drop (e :: erest).length) := by
    simp [extractFields, guardedFill, hEND, hrecEND, fillBuffer]
  have hins : (extractFields hdr rec b0).1.inslen =
      some (l :: lrest ++ (b0.inslen.getD []).drop (l :: lrest).length) := by
    simp [extractFields, guardedFill, hINS, hrecINS, fillBuffer]
  have hsvt : (extractFields hdr rec b0).1.svt = some "INS" := by
    simp [extractFields, hSVT, hrecSVT, fillString]
  have hlen : svlen (extractFields hdr rec b0).1 rec = some l := by
    unfold svlen
    rw [hsvend, hsvt, hins]
    simp [readAt]
  simp only [summarise, hlen, Option.map_some'] at hsum
  have hs := (Option.some.inj hsum).symm
  refine ⟨h2, h4, _, hproc, ?_, ?_⟩
  · exact writeRow_get hdr rec _ _ s _ row hrow 2 "end" h2 _
      (by simp [writeColumn, hEND, hsvend, readAt])
  · refine writeRow_get hdr rec _ _ s _ row hrow 4 "size" h4 _ ?_
    rw [hs]
    simp [writeColumn]

/-- Claim C12, amended, at the insertion with END 1050 and insertion length 120. -/
theorem size_column_insertion_witness :
    (writeHeader sizeHeader)[2]? = some "end" ∧ (writeHeader sizeHeader)[4]? = some "size" ∧
    ∃ out, processRecord sizeHeader {} (sizeRecord 999 (some 1050) (some "INS") (some 120))
        = some out ∧
      out.2[2]? = some (some (.int 1050)) ∧
      out.2[4]? = some (some (.int 120)) :=
  size_column_insertion sizeHeader (sizeRecord 999 (some 1050) (some "INS") (some 120)) {}
    1050 120 [] [] (by decide) (by rfl) (by decide) (by rfl) (by decide) (by rfl) (by decide)

/-- Claim C13 fails on the code. Two runs that end with the same record, one without END,
SVTYPE and INSLEN, give different last rows: the end, size and svtype columns of the last row
repeat the END and SVTYPE values of the record before it. -/
theorem last_row_depends_on_earlier_records :
    rowField (run sizeHeader
      [sizeRecord 999 (some 2000) (some "DEL") none, sizeRecord 4999 none none none]) 1 2
      = some (some (.int 2000)) ∧
    rowField (run sizeHeader
      [sizeRecord 999 (some 3000) (some "DUP") none, sizeRecord 4999 none none none]) 1 2
      = some (some (.int 3000)) ∧
    rowField (run sizeHeader
      [sizeRecord 999 (some 2000) (some "DEL") none, sizeRecord 4999 none none none]) 1 4
      = some (some (.int (2000 - 4999))) ∧
    rowField (run sizeHeader
      [sizeRecord 999 (some 3000) (some "DUP") none, sizeRecord 4999 none none none]) 1 4
      = some (some (.int (3000 - 4999))) ∧
    (writeHeader sizeHeader)[9]? = some "svtype" ∧
    rowField (run sizeHeader
      [sizeRecord 999 (some 2000) (some "DEL") none, sizeRecord 4999 none none none]) 1 9
      = some (some (.text "DEL")) ∧
    rowField (run sizeHeader
      [sizeRecord 999 (some 3000) (some "DUP") none, sizeRecord 4999 none none none]) 1 9
      = some (some (.text "DUP")) ∧
    rowField (run sizeHeader
      [sizeRecord 999 (some 1050) (some "INS") (some 120), sizeRecord 4999 none none none]) 1 4
      = some (some (.int 120)) := by
  decide

/-- Claim C14 fails on the code. With RC declared and RCL, RCR not declared, a record that
is well formed for the header reaches the read of the unset buffer `rcl` at its 0/0 sample;
in the same way DV without DR reaches the read of `dr`, and the SV type "INS" without a
declared INSLEN reaches the read of `inslen`. -/
theorem unset_buffer_read_reachable :
    wellFormedRecord (headerOf ["RC"] ["s1"]) (formatRecord [2, 2] [("RC", [10])] []) = true ∧
    _isKeyPresent (headerOf ["RC"] ["s1"]) "RCL" = false ∧
    (extractFields (headerOf ["RC"] ["s1"]) (formatRecord [2, 2] [("RC", [10])] []) {}).1.rcl
      = none ∧
    readAt (extractFields (headerOf ["RC"] ["s1"])
      (formatRecord [2, 2] [("RC", [10])] []) {}).1.rc 0 = some 10 ∧
    nonCarrier (headerOf ["RC"] ["s1"])
      (extractFields (headerOf ["RC"] ["s1"]) (formatRecord [2, 2] [("RC", [10])] []) {}).1
      false { ac0 := 2 } 0 = none ∧
    (processRecord (headerOf ["RC"] ["s1"]) {} (formatRecord [2, 2] [("RC", [10])] [])).isNone
      = true ∧
    wellFormedRecord (headerOf ["DV"] ["s1"]) (formatRecord [2, 2] [("DV", [4])] []) = true ∧
    (extractFields (headerOf ["DV"] ["s1"]) (formatRecord [2, 2] [("DV", [4])] []) {}).1.dr
      = none ∧
    (processRecord (headerOf ["DV"] ["s1"]) {} (formatRecord [2, 2] [("DV", [4])] [])).isNone
      = true ∧
    wellFormedRecord (headerOf ["SVTYPE"] ["s1"]) (sizeRecord 999 none (some "INS") none)
      = true ∧
    (extractFields (headerOf ["SVTYPE"] ["s1"]) (sizeRecord 999 none (some "INS") none) {}).1.inslen
      = none ∧
    (processRecord (headerOf ["SVTYPE"] ["s1"]) {}
      (sizeRecord 999 none (some "INS") none)).isNone = true := by
  decide

end SvProps
